import Mathlib

/-!
Formal model of the Budgeto pay-cycle projection engine.

The TypeScript source works on JavaScript `Date` values (UTC milliseconds
since the Unix epoch) through `date-fns` helpers.  Here a date is an `Int`
(milliseconds); monetary amounts are exact rationals `ℚ`.  The calendar
layer below implements proleptic-Gregorian civil-date conversions with the
same semantics as JavaScript `Date` in UTC (day-of-month overflow rolls
into later months; `date-fns` `addMonths` clamps to the end of the month).
-/

/-- Milliseconds in one day. -/
def dayMs : Int := 86400000

/-- Proleptic Gregorian leap-year rule (same as JavaScript `Date`). -/
def isLeapYear (y : Int) : Prop := (y % 4 = 0 ∧ y % 100 ≠ 0) ∨ y % 400 = 0

instance (y : Int) : Decidable (isLeapYear y) := by unfold isLeapYear; infer_instance

/-- Number of days in month `m` (1..12) of year `y`. -/
def daysInMonth (y m : Int) : Int :=
  if m = 2 then (if isLeapYear y then 29 else 28)
  else if m = 4 ∨ m = 6 ∨ m = 9 ∨ m = 11 then 30 else 31

/-- Days from the start of year `y` to the start of its month `m` (1..12). -/
def daysBeforeMonth (y m : Int) : Int :=
  (if m = 1 then 0 else if m = 2 then 31 else if m = 3 then 59
   else if m = 4 then 90 else if m = 5 then 120 else if m = 6 then 151
   else if m = 7 then 181 else if m = 8 then 212 else if m = 9 then 243
   else if m = 10 then 273 else if m = 11 then 304 else 334)
  + (if 3 ≤ m ∧ isLeapYear y then 1 else 0)

/-- Epoch-day number (days since 1970-01-01) of the start of year `y`. -/
def daysBeforeYear (y : Int) : Int :=
  365 * (y - 1970) + ((y - 1) / 4 - (y - 1) / 100 + (y - 1) / 400) - 477

/-- Epoch-day number of the civil triple `(y, m, d)`.  The formula is linear
in `d`, so a `d` beyond the end of the month rolls over into the following
months, exactly like JavaScript `Date.setDate`. -/
def daysFromCivil (y m d : Int) : Int := daysBeforeYear y + daysBeforeMonth y m + (d - 1)

/-- Start (in days) of shifted (March-based) year `n` within a 400-year era. -/
def shiftedStart (n : Int) : Int := 365 * n + n / 4 - n / 100

/-- Era index of an epoch-day number (400-year Gregorian cycles, March-based). -/
def eraOf (z : Int) : Int := (z + 719468) / 146097

/-- Day-of-era of an epoch-day number (0..146096). -/
def doeOf (z : Int) : Int := z + 719468 - 146097 * eraOf z

/-- First correction step of the shifted-year search. -/
def yoe1 (doe : Int) : Int :=
  if doe / 366 < 399 ∧ shiftedStart (doe / 366 + 1) ≤ doe then doe / 366 + 1 else doe / 366

/-- Shifted year-of-era (0..399) containing day-of-era `doe`: an initial
underestimate `doe / 366` corrected by at most two comparison steps. -/
def yoeOf (doe : Int) : Int :=
  if yoe1 doe < 399 ∧ shiftedStart (yoe1 doe + 1) ≤ doe then yoe1 doe + 1 else yoe1 doe

/-- Convert (era, shifted year-of-era, shifted day-of-year) to a civil
`(year, month, day)` triple.  Shifted years start on March 1, so shifted
months 0..9 are March..December and months 10, 11 are January and February
of the following civil year. -/
def monthAssemble (era yoe doy : Int) : Int × Int × Int :=
  if doy < 31 then (era * 400 + yoe, 3, doy + 1)
  else if doy < 61 then (era * 400 + yoe, 4, doy - 30)
  else if doy < 92 then (era * 400 + yoe, 5, doy - 60)
  else if doy < 122 then (era * 400 + yoe, 6, doy - 91)
  else if doy < 153 then (era * 400 + yoe, 7, doy - 121)
  else if doy < 184 then (era * 400 + yoe, 8, doy - 152)
  else if doy < 214 then (era * 400 + yoe, 9, doy - 183)
  else if doy < 245 then (era * 400 + yoe, 10, doy - 213)
  else if doy < 275 then (era * 400 + yoe, 11, doy - 244)
  else if doy < 306 then (era * 400 + yoe, 12, doy - 274)
  else if doy < 337 then (era * 400 + yoe + 1, 1, doy - 305)
  else (era * 400 + yoe + 1, 2, doy - 336)

/-- Civil `(year, month, day)` of an epoch-day number. -/
def civilFromDay (z : Int) : Int × Int × Int :=
  monthAssemble (eraOf z) (yoeOf (doeOf z)) (doeOf z - shiftedStart (yoeOf (doeOf z)))

/-- Successor rule for flooring division by 4. -/
theorem div4_succ (b : Int) :
    ((b + 1) / 4 = b / 4 ∧ (b + 1) % 4 ≠ 0) ∨
    ((b + 1) / 4 = b / 4 + 1 ∧ (b + 1) % 4 = 0) := by
  omega

/-- Successor rule for flooring division by 100. -/
theorem div100_succ (b : Int) :
    ((b + 1) / 100 = b / 100 ∧ (b + 1) % 100 ≠ 0) ∨
    ((b + 1) / 100 = b / 100 + 1 ∧ (b + 1) % 100 = 0) := by
  omega

/-- Successor rule for flooring division by 400. -/
theorem div400_succ (b : Int) :
    ((b + 1) / 400 = b / 400 ∧ (b + 1) % 400 ≠ 0) ∨
    ((b + 1) / 400 = b / 400 + 1 ∧ (b + 1) % 400 = 0) := by
  omega

theorem doeOf_spec (z : Int) : 0 ≤ doeOf z ∧ doeOf z ≤ 146096 ∧
    z = 146097 * eraOf z + doeOf z - 719468 := by
  unfold doeOf eraOf; omega

set_option maxHeartbeats 1000000 in
theorem yoeOf_spec (doe : Int) (h0 : 0 ≤ doe) (h1 : doe ≤ 146096) :
    0 ≤ yoeOf doe ∧ yoeOf doe ≤ 399 ∧ shiftedStart (yoeOf doe) ≤ doe ∧
    doe - shiftedStart (yoeOf doe) ≤ 365 ∧
    (365 ≤ doe - shiftedStart (yoeOf doe) → isLeapYear (yoeOf doe + 1)) := by
  have e4a := div4_succ (doe / 366)
  have e4b := div4_succ (doe / 366 + 1)
  have e4c := div4_succ (doe / 366 + 2)
  have e100a := div100_succ (doe / 366)
  have e100b := div100_succ (doe / 366 + 1)
  have e100c := div100_succ (doe / 366 + 2)
  unfold yoeOf yoe1 shiftedStart
  unfold isLeapYear
  split_ifs <;> omega

/-- Divisibility-shift rules used to push an era multiple out of `/` and `%`. -/
theorem div4_shift (e w : Int) : (400 * e + w) / 4 = 100 * e + w / 4 := by omega

theorem div100_shift (e w : Int) : (400 * e + w) / 100 = 4 * e + w / 100 := by omega

theorem div400_shift (e w : Int) : (400 * e + w) / 400 = e + w / 400 := by omega

theorem mod4_shift (e w : Int) : (400 * e + w) % 4 = w % 4 := by omega

theorem mod100_shift (e w : Int) : (400 * e + w) % 100 = w % 100 := by omega

theorem mod400_shift (e w : Int) : (400 * e + w) % 400 = w % 400 := by omega

/-- Exhaustive branch description of `monthAssemble`. -/
theorem monthAssemble_cases (era yoe doy : Int) :
    (doy < 31 ∧ monthAssemble era yoe doy = (era * 400 + yoe, 3, doy + 1)) ∨
    (31 ≤ doy ∧ doy < 61 ∧ monthAssemble era yoe doy = (era * 400 + yoe, 4, doy - 30)) ∨
    (61 ≤ doy ∧ doy < 92 ∧ monthAssemble era yoe doy = (era * 400 + yoe, 5, doy - 60)) ∨
    (92 ≤ doy ∧ doy < 122 ∧ monthAssemble era yoe doy = (era * 400 + yoe, 6, doy - 91)) ∨
    (122 ≤ doy ∧ doy < 153 ∧ monthAssemble era yoe doy = (era * 400 + yoe, 7, doy - 121)) ∨
    (153 ≤ doy ∧ doy < 184 ∧ monthAssemble era yoe doy = (era * 400 + yoe, 8, doy - 152)) ∨
    (184 ≤ doy ∧ doy < 214 ∧ monthAssemble era yoe doy = (era * 400 + yoe, 9, doy - 183)) ∨
    (214 ≤ doy ∧ doy < 245 ∧ monthAssemble era yoe doy = (era * 400 + yoe, 10, doy - 213)) ∨
    (245 ≤ doy ∧ doy < 275 ∧ monthAssemble era yoe doy = (era * 400 + yoe, 11, doy - 244)) ∨
    (275 ≤ doy ∧ doy < 306 ∧ monthAssemble era yoe doy = (era * 400 + yoe, 12, doy - 274)) ∨
    (306 ≤ doy ∧ doy < 337 ∧ monthAssemble era yoe doy = (era * 400 + yoe + 1, 1, doy - 305)) ∨
    (337 ≤ doy ∧ monthAssemble era yoe doy = (era * 400 + yoe + 1, 2, doy - 336)) := by
  by_cases h1 : doy < 31
  · exact Or.inl ⟨h1, by rw [monthAssemble, if_pos h1]⟩
  by_cases h2 : doy < 61
  · exact Or.inr <| Or.inl ⟨by omega, h2, by rw [monthAssemble, if_neg h1, if_pos h2]⟩
  by_cases h3 : doy < 92
  · exact Or.inr <| Or.inr <| Or.inl ⟨by omega, h3,
      by rw [monthAssemble, if_neg h1, if_neg h2, if_pos h3]⟩
  by_cases h4 : doy < 122
  · exact Or.inr <| Or.inr <| Or.inr <| Or.inl ⟨by omega, h4,
      by rw [monthAssemble, if_neg h1, if_neg h2, if_neg h3, if_pos h4]⟩
  by_cases h5 : doy < 153
  · exact Or.inr <| Or.inr <| Or.inr <| Or.inr <| Or.inl ⟨by omega, h5,
      by rw [monthAssemble, if_neg h1, if_neg h2, if_neg h3, if_neg h4, if_pos h5]⟩
  by_cases h6 : doy < 184
  · exact Or.inr <| Or.inr <| Or.inr <| Or.inr <| Or.inr <| Or.inl ⟨by omega, h6,
      by rw [monthAssemble, if_neg h1, if_neg h2, if_neg h3, if_neg h4, if_neg h5, if_pos h6]⟩
  by_cases h7 : doy < 214
  · exact Or.inr <| Or.inr <| Or.inr <| Or.inr <| Or.inr <| Or.inr <| Or.inl ⟨by omega, h7,
      by rw [monthAssemble, if_neg h1, if_neg h2, if_neg h3, if_neg h4, if_neg h5, if_neg h6,
        if_pos h7]⟩
  by_cases h8 : doy < 245
  · exact Or.inr <| Or.inr <| Or.inr <| Or.inr <| Or.inr <| Or.inr <| Or.inr <| Or.inl
      ⟨by omega, h8,
      by rw [monthAssemble, if_neg h1, if_neg h2, if_neg h3, if_neg h4, if_neg h5, if_neg h6,
        if_neg h7, if_pos h8]⟩
  by_cases h9 : doy < 275
  · exact Or.inr <| Or.inr <| Or.inr <| Or.inr <| Or.inr <| Or.inr <| Or.inr <| Or.inr <| Or.inl
      ⟨by omega, h9,
      by rw [monthAssemble, if_neg h1, if_neg h2, if_neg h3, if_neg h4, if_neg h5, if_neg h6,
        if_neg h7, if_neg h8, if_pos h9]⟩
  by_cases h10 : doy < 306
  · exact Or.inr <| Or.inr <| Or.inr <| Or.inr <| Or.inr <| Or.inr <| Or.inr <| Or.inr <| Or.inr <|
      Or.inl ⟨by omega, h10,
      by rw [monthAssemble, if_neg h1, if_neg h2, if_neg h3, if_neg h4, if_neg h5, if_neg h6,
        if_neg h7, if_neg h8, if_neg h9, if_pos h10]⟩
  by_cases h11 : doy < 337
  · exact Or.inr <| Or.inr <| Or.inr <| Or.inr <| Or.inr <| Or.inr <| Or.inr <| Or.inr <| Or.inr <|
      Or.inr <| Or.inl ⟨by omega, h11,
      by rw [monthAssemble, if_neg h1, if_neg h2, if_neg h3, if_neg h4, if_neg h5, if_neg h6,
        if_neg h7, if_neg h8, if_neg h9, if_neg h10, if_pos h11]⟩
  · exact Or.inr <| Or.inr <| Or.inr <| Or.inr <| Or.inr <| Or.inr <| Or.inr <| Or.inr <| Or.inr <|
      Or.inr <| Or.inr ⟨by omega,
      by rw [monthAssemble, if_neg h1, if_neg h2, if_neg h3, if_neg h4, if_neg h5, if_neg h6,
        if_neg h7, if_neg h8, if_neg h9, if_neg h10, if_neg h11]⟩

set_option maxHeartbeats 4000000 in
theorem monthAssemble_correct (era yoe doy : Int)
    (hy0 : 0 ≤ yoe) (hy1 : yoe ≤ 399)
    (h0 : 0 ≤ doy) (h1 : doy ≤ 365) (h2 : 365 ≤ doy → isLeapYear (yoe + 1)) :
    1 ≤ (monthAssemble era yoe doy).2.1 ∧ (monthAssemble era yoe doy).2.1 ≤ 12 ∧
    1 ≤ (monthAssemble era yoe doy).2.2 ∧
    (monthAssemble era yoe doy).2.2 ≤
      daysInMonth (monthAssemble era yoe doy).1 (monthAssemble era yoe doy).2.1 ∧
    daysFromCivil (monthAssemble era yoe doy).1 (monthAssemble era yoe doy).2.1
      (monthAssemble era yoe doy).2.2
      = 146097 * era + shiftedStart yoe + doy - 719468 := by
  rcases monthAssemble_cases era yoe doy with
    ⟨ha, hM⟩ | ⟨ha, hb, hM⟩ | ⟨ha, hb, hM⟩ | ⟨ha, hb, hM⟩ | ⟨ha, hb, hM⟩ | ⟨ha, hb, hM⟩ |
    ⟨ha, hb, hM⟩ | ⟨ha, hb, hM⟩ | ⟨ha, hb, hM⟩ | ⟨ha, hb, hM⟩ | ⟨ha, hb, hM⟩ | ⟨ha, hM⟩
  case inl =>
    have s4 := div4_shift era (yoe - 1)
    have s100 := div100_shift era (yoe - 1)
    have s400 := div400_shift era (yoe - 1)
    have m4 := mod4_shift era yoe
    have m100 := mod100_shift era yoe
    have m400 := mod400_shift era yoe
    have e4 := div4_succ (yoe - 1)
    have e100 := div100_succ (yoe - 1)
    rw [hM]; dsimp only
    unfold daysFromCivil daysBeforeYear daysBeforeMonth daysInMonth shiftedStart isLeapYear
    norm_num; split_ifs <;> omega
  case inr.inr.inr.inr.inr.inr.inr.inr.inr.inr.inl =>
    have s4 := div4_shift era yoe
    have s100 := div100_shift era yoe
    have s400 := div400_shift era yoe
    rw [hM]; dsimp only
    unfold daysFromCivil daysBeforeYear daysBeforeMonth daysInMonth shiftedStart isLeapYear
    norm_num; omega
  case inr.inr.inr.inr.inr.inr.inr.inr.inr.inr.inr =>
    have s4 := div4_shift era yoe
    have s100 := div100_shift era yoe
    have s400 := div400_shift era yoe
    have m4 := mod4_shift era (yoe + 1)
    have m100 := mod100_shift era (yoe + 1)
    have m400 := mod400_shift era (yoe + 1)
    unfold isLeapYear at h2
    rw [hM]; dsimp only
    unfold daysFromCivil daysBeforeYear daysBeforeMonth daysInMonth shiftedStart isLeapYear
    norm_num; split_ifs <;> omega
  all_goals
    have s4 := div4_shift era (yoe - 1)
    have s100 := div100_shift era (yoe - 1)
    have s400 := div400_shift era (yoe - 1)
    have m4 := mod4_shift era yoe
    have m100 := mod100_shift era yoe
    have m400 := mod400_shift era yoe
    have e4 := div4_succ (yoe - 1)
    have e100 := div100_succ (yoe - 1)
    rw [hM]; dsimp only
    unfold daysFromCivil daysBeforeYear daysBeforeMonth daysInMonth shiftedStart isLeapYear
    norm_num; split_ifs <;> omega

theorem civilFromDay_correct (z : Int) :
    1 ≤ (civilFromDay z).2.1 ∧ (civilFromDay z).2.1 ≤ 12 ∧
    1 ≤ (civilFromDay z).2.2 ∧
    (civilFromDay z).2.2 ≤ daysInMonth (civilFromDay z).1 (civilFromDay z).2.1 ∧
    daysFromCivil (civilFromDay z).1 (civilFromDay z).2.1 (civilFromDay z).2.2 = z := by
  obtain ⟨hd0, hd1, hz⟩ := doeOf_spec z
  obtain ⟨hy0, hy1, hs, hb, hc⟩ := yoeOf_spec (doeOf z) hd0 hd1
  have h := monthAssemble_correct (eraOf z) (yoeOf (doeOf z))
    (doeOf z - shiftedStart (yoeOf (doeOf z))) hy0 hy1 (by omega) (by omega)
    (by intro hh; exact hc (by omega))
  unfold civilFromDay
  refine ⟨h.1, h.2.1, h.2.2.1, h.2.2.2.1, ?_⟩
  rw [h.2.2.2.2]
  omega

/-! ### Millisecond-level date values

A JavaScript `Date` is a count of milliseconds since the Unix epoch; the
source treats all dates in one fixed zone, modelled here as UTC. -/

/-- Epoch-day number containing millisecond timestamp `t`. -/
def epochDay (t : Int) : Int := t / dayMs

/-- Millisecond offset of `t` within its day. -/
def msOfDay (t : Int) : Int := t % dayMs

/-- `date-fns` `startOfDay` (UTC): midnight of the day containing `t`. -/
def startOfDayMs (t : Int) : Int := epochDay t * dayMs

/-- `date-fns` `endOfDay` (UTC): 23:59:59.999 of the day containing `t`. -/
def endOfDayMs (t : Int) : Int := startOfDayMs t + dayMs - 1

/-- `date-fns` `isSameDay` (UTC). -/
def sameDay (a b : Int) : Prop := epochDay a = epochDay b

instance (a b : Int) : Decidable (sameDay a b) := by unfold sameDay; infer_instance

/-- JavaScript `Date.getDay` (0 = Sunday .. 6 = Saturday); 1970-01-01 was a
Thursday. -/
def dayOfWeekNum (t : Int) : Int := (epochDay t + 4) % 7

/-- JavaScript `Date.getFullYear` of timestamp `t`. -/
def yearOf (t : Int) : Int := (civilFromDay (epochDay t)).1

/-- JavaScript `Date.getMonth` + 1 (so 1..12) of timestamp `t`. -/
def monthOf (t : Int) : Int := (civilFromDay (epochDay t)).2.1

/-- JavaScript `Date.getDate` (day of month 1..31) of timestamp `t`. -/
def dayOfMonthOf (t : Int) : Int := (civilFromDay (epochDay t)).2.2

/-- JavaScript `Date.setDate d`: keep year, month and time of day, set the
day of month to `d`; out-of-range `d` rolls linearly into adjacent months. -/
def setDateMs (t d : Int) : Int :=
  daysFromCivil (yearOf t) (monthOf t) d * dayMs + msOfDay t

/-- JavaScript `Date.setMonth m0` (`m0` is a 0-based month index): keep the
nominal day of month and time of day; the year absorbs `m0 / 12`; a day
beyond the target month's length rolls into the following month. -/
def setMonthMs (t m0 : Int) : Int :=
  daysFromCivil (yearOf t + m0 / 12) (m0 % 12 + 1) (dayOfMonthOf t) * dayMs + msOfDay t

/-- `date-fns` `addDays`. -/
def addDaysMs (t n : Int) : Int := t + n * dayMs

/-- `date-fns` `addWeeks`. -/
def addWeeksMs (t n : Int) : Int := t + n * 7 * dayMs

/-- `date-fns` `addMonths`: advance the month, clamping the day of month to
the length of the target month. -/
def addMonthsMs (t n : Int) : Int :=
  daysFromCivil ((12 * yearOf t + (monthOf t - 1) + n) / 12)
    ((12 * yearOf t + (monthOf t - 1) + n) % 12 + 1)
    (min (dayOfMonthOf t)
      (daysInMonth ((12 * yearOf t + (monthOf t - 1) + n) / 12)
        ((12 * yearOf t + (monthOf t - 1) + n) % 12 + 1))) * dayMs + msOfDay t

theorem div12_shift (e w : Int) : (12 * e + w) / 12 = e + w / 12 := by omega

theorem mod12_shift (e w : Int) : (12 * e + w) % 12 = w % 12 := by omega

/-- Validity and inversion of the civil fields of a timestamp. -/
theorem civil_ms_spec (t : Int) :
    1 ≤ monthOf t ∧ monthOf t ≤ 12 ∧ 1 ≤ dayOfMonthOf t ∧
    dayOfMonthOf t ≤ daysInMonth (yearOf t) (monthOf t) ∧
    daysFromCivil (yearOf t) (monthOf t) (dayOfMonthOf t) = epochDay t := by
  have h := civilFromDay_correct (epochDay t)
  exact ⟨h.1, h.2.1, h.2.2.1, h.2.2.2.1, h.2.2.2.2⟩

/-- Decomposition of a timestamp into day number and time of day. -/
theorem epochDay_decomp (t : Int) :
    t = epochDay t * dayMs + msOfDay t ∧ 0 ≤ msOfDay t ∧ msOfDay t < dayMs := by
  unfold epochDay msOfDay dayMs; omega

theorem epochDay_of_decomp (n r : Int) (h0 : 0 ≤ r) (h1 : r < dayMs) :
    epochDay (n * dayMs + r) = n ∧ msOfDay (n * dayMs + r) = r := by
  unfold epochDay msOfDay dayMs at *; omega

theorem daysInMonth_pos (y m : Int) : 28 ≤ daysInMonth y m ∧ daysInMonth y m ≤ 31 := by
  unfold daysInMonth; split_ifs <;> omega

/-- Cumulative-month step rule. -/
theorem daysBeforeMonth_succ (y m : Int) (h1 : 1 ≤ m) (h2 : m ≤ 11) :
    daysBeforeMonth y (m + 1) = daysBeforeMonth y m + daysInMonth y m := by
  interval_cases m <;>
    unfold daysBeforeMonth daysInMonth <;>
    norm_num <;>
    (try split_ifs) <;>
    omega

/-- Start-of-year step rule. -/
theorem daysBeforeYear_succ (y : Int) :
    daysBeforeYear (y + 1) = daysBeforeYear y + 365 + (if isLeapYear y then 1 else 0) := by
  have e4 := div4_succ (y - 1)
  have e100 := div100_succ (y - 1)
  have e400 := div400_succ (y - 1)
  unfold daysBeforeYear isLeapYear
  split_ifs <;> omega

/-- A valid civil date lies inside its year's day-number span. -/
theorem daysFromCivil_year_bounds (y m d : Int) (hm1 : 1 ≤ m) (hm2 : m ≤ 12)
    (hd1 : 1 ≤ d) (hd2 : d ≤ daysInMonth y m) :
    daysBeforeYear y ≤ daysFromCivil y m d ∧
    daysFromCivil y m d < daysBeforeYear (y + 1) := by
  rw [daysBeforeYear_succ]
  interval_cases m <;>
  · unfold daysFromCivil daysBeforeMonth daysInMonth at *
    norm_num at *
    split_ifs at * <;> omega

set_option maxHeartbeats 1000000 in
theorem daysBeforeYear_mono (a b : Int) (h : a ≤ b) :
    daysBeforeYear a ≤ daysBeforeYear b := by
  unfold daysBeforeYear
  omega

set_option maxHeartbeats 2000000 in
theorem daysBeforeMonth_mono (y a b : Int) (h1 : 1 ≤ a) (h2 : a ≤ b) (h3 : b ≤ 12) :
    daysBeforeMonth y a ≤ daysBeforeMonth y b := by
  have h4 : a ≤ 12 := le_trans h2 h3
  have h5 : 1 ≤ b := le_trans h1 h2
  interval_cases a <;> interval_cases b <;>
    unfold daysBeforeMonth <;>
    norm_num <;>
    (try split_ifs) <;>
    omega

/-- `daysFromCivil` inverts `civilFromDay` on valid civil dates. -/
theorem civilFromDay_daysFromCivil (y m d : Int) (hm1 : 1 ≤ m) (hm2 : m ≤ 12)
    (hd1 : 1 ≤ d) (hd2 : d ≤ daysInMonth y m) :
    civilFromDay (daysFromCivil y m d) = (y, m, d) := by
  obtain ⟨vm1, vm2, vd1, vd2, hinv⟩ := civilFromDay_correct (daysFromCivil y m d)
  rcases hC : civilFromDay (daysFromCivil y m d) with ⟨y', m', d'⟩
  rw [hC] at vm1 vm2 vd1 vd2 hinv
  dsimp only at vm1 vm2 vd1 vd2 hinv
  obtain ⟨b1, b2⟩ := daysFromCivil_year_bounds y m d hm1 hm2 hd1 hd2
  obtain ⟨b1', b2'⟩ := daysFromCivil_year_bounds y' m' d' vm1 vm2 vd1 vd2
  rw [hinv] at b1' b2'
  have hyy : y = y' := by
    rcases lt_trichotomy y y' with hlt | heq | hgt
    · have := daysBeforeYear_mono (y + 1) y' (by omega)
      omega
    · exact heq
    · have := daysBeforeYear_mono (y' + 1) y (by omega)
      omega
  subst hyy
  have hmm : m = m' := by
    rcases lt_trichotomy m m' with hlt | heq | hgt
    · have hs := daysBeforeMonth_succ y m hm1 (by omega)
      have := daysBeforeMonth_mono y (m + 1) m' (by omega) (by omega) vm2
      unfold daysFromCivil at hinv
      omega
    · exact heq
    · have hs := daysBeforeMonth_succ y m' vm1 (by omega)
      have := daysBeforeMonth_mono y (m' + 1) m (by omega) (by omega) hm2
      unfold daysFromCivil at hinv
      omega
  subst hmm
  have hdd : d = d' := by
    unfold daysFromCivil at hinv
    omega
  subst hdd
  rfl

/-- The civil fields of a timestamp assembled from a valid civil date. -/
theorem civil_fields_of_valid (y m d r : Int) (hm1 : 1 ≤ m) (hm2 : m ≤ 12)
    (hd1 : 1 ≤ d) (hd2 : d ≤ daysInMonth y m) (hr0 : 0 ≤ r) (hr1 : r < dayMs) :
    yearOf (daysFromCivil y m d * dayMs + r) = y ∧
    monthOf (daysFromCivil y m d * dayMs + r) = m ∧
    dayOfMonthOf (daysFromCivil y m d * dayMs + r) = d ∧
    epochDay (daysFromCivil y m d * dayMs + r) = daysFromCivil y m d ∧
    msOfDay (daysFromCivil y m d * dayMs + r) = r := by
  obtain ⟨he, hm⟩ := epochDay_of_decomp (daysFromCivil y m d) r hr0 hr1
  have hc := civilFromDay_daysFromCivil y m d hm1 hm2 hd1 hd2
  unfold yearOf monthOf dayOfMonthOf
  rw [he, hc]
  exact ⟨rfl, rfl, rfl, rfl, hm⟩

/-- `date-fns` `addMonths t 1` strictly advances the timestamp (by at least
one full day, since the clamped day of month stays at least 1). -/
theorem lt_addMonthsMs_one (t : Int) : t < addMonthsMs t 1 ∧
    epochDay t < epochDay (addMonthsMs t 1) ∧
    msOfDay (addMonthsMs t 1) = msOfDay t := by
  obtain ⟨hm1, hm2, hd1, hd2, hinv⟩ := civil_ms_spec t
  obtain ⟨hdec, hr0, hr1⟩ := epochDay_decomp t
  have h28 := daysInMonth_pos (yearOf t) (monthOf t)
  unfold addMonthsMs
  rcases eq_or_lt_of_le hm2 with h12 | h11
  · -- December: target is January of the next year
    rw [h12] at hinv hd2 ⊢
    have ht : 12 * yearOf t + (12 - 1) + 1 = 12 * (yearOf t + 1) + 0 := by ring
    rw [ht, div12_shift, mod12_shift]
    norm_num
    have h31 : daysInMonth (yearOf t + 1) 1 = 31 := by unfold daysInMonth; norm_num
    rw [h31]
    have hlt : daysFromCivil (yearOf t) 12 (dayOfMonthOf t)
        < daysFromCivil (yearOf t + 1) 1 (min (dayOfMonthOf t) 31) := by
      have hy := daysBeforeYear_succ (yearOf t)
      have hbm : daysBeforeMonth (yearOf t) 12 =
          334 + (if isLeapYear (yearOf t) then 1 else 0) := by
        unfold daysBeforeMonth; norm_num
      have hbm1 : daysBeforeMonth (yearOf t + 1) 1 = 0 := by
        unfold daysBeforeMonth; norm_num
      have hdm : daysInMonth (yearOf t) 12 = 31 := by unfold daysInMonth; norm_num
      rw [hdm] at hd2
      unfold daysFromCivil
      rw [hbm1, hy, hbm]
      rw [min_def]
      split_ifs <;> omega
    have hdc := epochDay_of_decomp
      (daysFromCivil (yearOf t + 1) 1 (min (dayOfMonthOf t) 31)) (msOfDay t) hr0 hr1
    rw [hinv] at hlt
    unfold dayMs at *
    refine ⟨by omega, ?_, hdc.2⟩
    rw [hdc.1]
    omega
  · -- January..November: same year, next month
    have ht : 12 * yearOf t + (monthOf t - 1) + 1 = 12 * yearOf t + monthOf t := by ring
    rw [ht, div12_shift, mod12_shift]
    have hdiv : monthOf t / 12 = 0 := by omega
    have hmod : monthOf t % 12 = monthOf t := by omega
    rw [hdiv, hmod]
    norm_num
    have hlt : daysFromCivil (yearOf t) (monthOf t) (dayOfMonthOf t)
        < daysFromCivil (yearOf t) (monthOf t + 1)
            (min (dayOfMonthOf t) (daysInMonth (yearOf t) (monthOf t + 1))) := by
      have hs := daysBeforeMonth_succ (yearOf t) (monthOf t) hm1 (by omega)
      have h28' := daysInMonth_pos (yearOf t) (monthOf t + 1)
      unfold daysFromCivil
      rw [min_def]
      split_ifs <;> omega
    have hdc := epochDay_of_decomp
      (daysFromCivil (yearOf t) (monthOf t + 1)
        (min (dayOfMonthOf t) (daysInMonth (yearOf t) (monthOf t + 1)))) (msOfDay t) hr0 hr1
    rw [hinv] at hlt
    unfold dayMs at *
    refine ⟨by omega, ?_, hdc.2⟩
    rw [hdc.1]
    omega

/-! ### Program data model

`Doc<'bills'>` from the Convex schema.  `amount : Option ℚ` models a
JavaScript number that may be `NaN` (`none`); `dueDate` is an absolute
timestamp for one-off bills and a day of month for monthly bills;
weekly/fortnightly recurrence is anchored at `creationTime`
(`_creationTime`). -/
structure Bill where
  name : String
  amount : Option ℚ
  frequency : String
  dueDate : Option Int
  creationTime : Int
  isActive : Option Bool

/-- The `dateRange` argument of `calculateUpcomingBillsTotal`. -/
structure DateRange where
  startDate : Int
  endDate : Int

/-- The `isActive` filter used by the Convex queries `listActiveBills` and
`listActiveBillsByUserId`: keep bills whose `isActive` field is not
explicitly `false`. -/
def listActiveBillsFilter (bills : List Bill) : List Bill :=
  bills.filter (fun b => b.isActive != some false)

/-- `date-fns` `addWeeks _ 1`, the forward step of the weekly walk. -/
def weekStep (t : Int) : Int := addWeeksMs t 1

/-- `date-fns` `addWeeks _ 2`: the fortnightly `addIntervalFn` ignores its
sign argument, so this is its step in both directions. -/
def twoWeekStep (t : Int) : Int := addWeeksMs t 2

/-- `date-fns` `addWeeks _ (-1)`, the backward step of the weekly walk. -/
def weekBack (t : Int) : Int := addWeeksMs t (-1)

/-- `date-fns` `addMonths _ 1`, the step of the monthly walk. -/
def monthStep (t : Int) : Int := addMonthsMs t 1

theorem lt_weekStep (t : Int) : t < weekStep t := by
  unfold weekStep addWeeksMs dayMs; omega

theorem lt_twoWeekStep (t : Int) : t < twoWeekStep t := by
  unfold twoWeekStep addWeeksMs dayMs; omega

theorem lt_monthStep (t : Int) : t < monthStep t := (lt_addMonthsMs_one t).1

/-- The bounded backward anchor search: mirrors
`while (currentDate > rangeStart && backwardIterations < maxBackwardIterations)`
with the fuel argument starting at 1000. -/
def bwdWalk (step : Int → Int) (lo : Int) : Nat → Int → Int
  | 0, cur => cur
  | n + 1, cur => if lo < cur then bwdWalk step lo n (step cur) else cur

/-- The forward occurrence-counting loop shared by the monthly and the
weekly/fortnightly branches of `calculateUpcomingBillsTotal`: while the
current date is not after `hi`, count it when it lies in `[lo, hi]`, then
advance by `step`, breaking if the step fails to reach a different day. -/
def fwdWalk (step : Int → Int) (hstep : ∀ u, u < step u) (lo hi cur : Int) : Nat :=
  if hi < cur then 0
  else (if lo ≤ cur then 1 else 0) +
    (if sameDay (step cur) cur then 0 else fwdWalk step hstep lo hi (step cur))
termination_by (hi + 1 - cur).toNat
decreasing_by
  simp_wf
  have := hstep cur
  omega

/-- The monthly branch: start from `setDate(rangeStart, dayOfMonth)`,
advance one month if that candidate precedes the range start, then count
month steps through the interval. -/
def monthlyCount (dayOfMonth lo hi : Int) : Nat :=
  fwdWalk monthStep lt_monthStep lo hi
    (if setDateMs lo dayOfMonth < lo then monthStep (setDateMs lo dayOfMonth)
     else setDateMs lo dayOfMonth)

/-- The weekly branch: walk the creation-time anchor backwards (at most
1000 iterations), then count week steps through the interval. -/
def weeklyCount (anchor lo hi : Int) : Nat :=
  fwdWalk weekStep lt_weekStep lo hi (bwdWalk weekBack lo 1000 anchor)

/-- The fortnightly branch: the "backward" walk also uses the two-week
forward step (the sign argument is ignored by the lambda in the source),
then the forward count uses the same step. -/
def fortnightlyCount (anchor lo hi : Int) : Nat :=
  fwdWalk twoWeekStep lt_twoWeekStep lo hi (bwdWalk twoWeekStep lo 1000 anchor)

/-- Contribution of one bill to `calculateUpcomingBillsTotal` over the
normalized interval `[lo, hi]`. -/
def billContribution (lo hi : Int) (b : Bill) : ℚ :=
  match b.amount with
  | none => 0
  | some amt =>
    if b.frequency = "one-off" then
      match b.dueDate with
      | none => 0
      | some ts => if lo ≤ ts ∧ ts ≤ hi then amt else 0
    else if b.frequency = "monthly" then
      match b.dueDate with
      | none => 0
      | some d => if d < 1 ∨ 31 < d then 0 else (monthlyCount d lo hi : ℚ) * amt
    else if b.frequency = "weekly" then
      (weeklyCount b.creationTime lo hi : ℚ) * amt
    else if b.frequency = "fortnightly" then
      (fortnightlyCount b.creationTime lo hi : ℚ) * amt
    else 0

/-- `calculateUpcomingBillsTotal` from `app/lib/bills.ts`. -/
def calculateUpcomingBillsTotal (bills : List Bill) (range : DateRange) : ℚ :=
  bills.foldl
    (fun acc b =>
      acc + billContribution (startOfDayMs range.startDate) (endOfDayMs range.endDate) b)
    0

/-- `calculateBillsBetweenDates` simply delegates to
`calculateUpcomingBillsTotal`. -/
def calculateBillsBetweenDates (bills : List Bill) (startDate endDate : Int) : ℚ :=
  calculateUpcomingBillsTotal bills ⟨startDate, endDate⟩

/-! ### Pay calculations (`app/lib/payCalculations.ts`) -/

/-- ASCII lower-casing, modelling `String.prototype.toLowerCase` on the
ASCII day/frequency names the source uses. -/
def asciiLower (s : String) : String := ⟨s.data.map Char.toLower⟩

/-- The `dayOfWeekMap` lookup table (0 = Sunday .. 6 = Saturday). -/
def dayOfWeekMap (s : String) : Option Int :=
  if s = "sunday" then some 0
  else if s = "monday" then some 1
  else if s = "tuesday" then some 2
  else if s = "wednesday" then some 3
  else if s = "thursday" then some 4
  else if s = "friday" then some 5
  else if s = "saturday" then some 6
  else none

/-- `calculateAnnualSalary`: `null` for a missing/non-positive amount or a
missing/empty/unrecognized frequency, otherwise the amount times the cycle
multiplier. -/
def calculateAnnualSalary (amount : Option ℚ) (frequency : Option String) : Option ℚ :=
  match amount, frequency with
  | none, _ => none
  | _, none => none
  | some a, some f =>
    if a ≤ 0 ∨ f.isEmpty then none
    else if f = "monthly" then some (a * 12)
    else if f = "fortnightly" then some (a * 26)
    else if f = "weekly" then some (a * 52)
    else none

/-- `calculateTargetCycleAmount`: same guards on the annual salary and the
target frequency; otherwise the annual amount divided by the multiplier. -/
def calculateTargetCycleAmount (annualSalary : Option ℚ)
    (targetFrequency : Option String) : Option ℚ :=
  match annualSalary, targetFrequency with
  | none, _ => none
  | _, none => none
  | some s, some f =>
    if s ≤ 0 ∨ f.isEmpty then none
    else if f = "monthly" then some (s / 12)
    else if f = "fortnightly" then some (s / 26)
    else if f = "weekly" then some (s / 52)
    else none

/-- `calculateNextPayday`.  `now` stands for the `new Date()` the source
takes implicitly; it is normalized to the start of its day.  In the
monthly branch the `while` loop guard compares `nextPayday.getMonth()`
against `originalMonth` read from the same value, so its body (intended to
clamp an overflowed day back to the end of the month) is unreachable; the
definition keeps that structure. -/
def calculateNextPayday (now : Int) (frequency : Option String)
    (dayOfMonth : Option Int) (dayOfWeek : Option String) : Option Int :=
  match frequency with
  | none => none
  | some f =>
    if f.isEmpty then none
    else if f = "monthly" then
      match dayOfMonth with
      | none => none
      | some d =>
        if d < 1 ∨ 31 < d then none
        else
          let today := startOfDayMs now
          let np1 := setDateMs today d
          let np2 := if np1 < today then setDateMs (setMonthMs np1 (monthOf np1)) d else np1
          if monthOf np2 ≠ monthOf np2 then
            some (daysFromCivil (yearOf today) (monthOf np2 + 1) 0 * dayMs)
          else some np2
    else if f = "fortnightly" then
      match dayOfWeek with
      | none => none
      | some w =>
        match dayOfWeekMap (asciiLower w) with
        | none => none
        | some target =>
          let today := startOfDayMs now
          let du := (target - dayOfWeekNum today + 7) % 7
          let first := addDaysMs today (if du = 0 then 7 else du)
          some (addDaysMs first 14)
    else if f = "weekly" then
      match dayOfWeek with
      | none => none
      | some w =>
        match dayOfWeekMap (asciiLower w) with
        | none => none
        | some target =>
          let today := startOfDayMs now
          let du := (target - dayOfWeekNum today + 7) % 7
          some (addDaysMs today (if du = 0 then 7 else du))
    else none

/-- User settings fields consumed by `generateProjectedSchedule`. -/
structure Settings where
  desiredPayFrequency : Option String
  desiredPayDayOfWeek : Option String
  desiredPayAmount : Option ℚ

/-- One projected allowance period. -/
structure ProjectedScheduleItem where
  allowanceDate : Int
  allowanceAmount : ℚ
  billsDueInPeriod : ℚ
  leftoverForPeriod : ℚ

/-- The `for i in 0..count-1` loop of `generateProjectedSchedule`. -/
def scheduleLoop (bills : List Bill) (amt : ℚ) (intervalDays : Int) :
    Nat → Int → List ProjectedScheduleItem
  | 0, _ => []
  | n + 1, cur =>
    { allowanceDate := cur
      allowanceAmount := amt
      billsDueInPeriod := calculateBillsBetweenDates bills cur (addDaysMs cur intervalDays)
      leftoverForPeriod := amt - calculateBillsBetweenDates bills cur (addDaysMs cur intervalDays) }
    :: scheduleLoop bills amt intervalDays n (addDaysMs cur intervalDays)

/-- `generateProjectedSchedule`; `now` stands for the implicit `new Date()`. -/
def generateProjectedSchedule (settings : Settings) (bills : List Bill)
    (count : Nat) (now : Int) : List ProjectedScheduleItem :=
  match settings.desiredPayFrequency, settings.desiredPayDayOfWeek,
      settings.desiredPayAmount with
  | some freq, some dayName, some amt =>
    if freq.isEmpty ∨ dayName.isEmpty then []
    else
      match dayOfWeekMap (asciiLower dayName) with
      | none => []
      | some targetDayNum =>
        let today := startOfDayMs now
        let du := (targetDayNum - dayOfWeekNum today + 7) % 7
        let firstDate := addDaysMs today (if du = 0 then 7 else du)
        if asciiLower freq = "weekly" then scheduleLoop bills amt 7 count firstDate
        else if asciiLower freq = "fortnightly" then scheduleLoop bills amt 14 count firstDate
        else []
  | _, _, _ => []

/-! ### Fuel-indexed mirror of the expander loops

The `while` loops of `calculateUpcomingBillsTotal` are modelled above by
well-founded recursion.  The fuel-indexed functions below make the same
iteration structure explicit: `none` means the iteration budget was
exhausted before the loop exit condition was reached.  They are used to
state termination (claim C10) and to evaluate the expander on concrete
inputs. -/

def fwdWalkFuel (step : Int → Int) (lo hi : Int) : Nat → Int → Option Nat
  | 0, _ => none
  | n + 1, cur =>
    if hi < cur then some 0
    else if sameDay (step cur) cur then some (if lo ≤ cur then 1 else 0)
    else
      match fwdWalkFuel step lo hi n (step cur) with
      | none => none
      | some c => some ((if lo ≤ cur then 1 else 0) + c)

theorem fwdWalkFuel_agree (step : Int → Int) (hstep : ∀ u, u < step u) (lo hi : Int) :
    ∀ (n : Nat) (cur : Int) (c : Nat), fwdWalkFuel step lo hi n cur = some c →
      fwdWalk step hstep lo hi cur = c := by
  intro n
  induction n with
  | zero => intro cur c h; simp [fwdWalkFuel] at h
  | succ n ih =>
    intro cur c h
    rw [fwdWalk]
    unfold fwdWalkFuel at h
    by_cases h1 : hi < cur
    · rw [if_pos h1] at h ⊢
      simp only [Option.some.injEq] at h
      omega
    · rw [if_neg h1] at h ⊢
      by_cases h2 : sameDay (step cur) cur
      · rw [if_pos h2] at h
        rw [if_pos h2]
        simp only [Option.some.injEq] at h
        omega
      · rw [if_neg h2] at h
        rw [if_neg h2]
        rcases hr : fwdWalkFuel step lo hi n (step cur) with _ | c'
        · rw [hr] at h; exact absurd h (by simp)
        · rw [hr] at h
          simp only [Option.some.injEq] at h
          rw [ih (step cur) c' hr]
          omega

theorem fwdWalkFuel_exists (step : Int → Int) (hstep : ∀ u, u < step u) (lo hi : Int) :
    ∀ cur : Int, ∃ n : Nat,
      fwdWalkFuel step lo hi n cur = some (fwdWalk step hstep lo hi cur) := by
  intro cur
  by_cases h1 : hi < cur
  · refine ⟨1, ?_⟩
    rw [fwdWalk]
    unfold fwdWalkFuel
    rw [if_pos h1, if_pos h1]
  · by_cases h2 : sameDay (step cur) cur
    · refine ⟨1, ?_⟩
      rw [fwdWalk]
      unfold fwdWalkFuel
      rw [if_neg h1, if_neg h1, if_pos h2, if_pos h2]
      simp
    · have hlt : (hi + 1 - step cur).toNat < (hi + 1 - cur).toNat := by
        have := hstep cur
        omega
      obtain ⟨n, hn⟩ := fwdWalkFuel_exists step hstep lo hi (step cur)
      refine ⟨n + 1, ?_⟩
      rw [fwdWalk]
      unfold fwdWalkFuel
      rw [if_neg h1, if_neg h1, if_neg h2, if_neg h2, hn]
termination_by cur => (hi + 1 - cur).toNat

theorem fwdWalkFuel_mono (step : Int → Int) (lo hi : Int) :
    ∀ (n : Nat) (cur : Int) (c : Nat), fwdWalkFuel step lo hi n cur = some c →
      fwdWalkFuel step lo hi (n + 1) cur = some c := by
  intro n
  induction n with
  | zero => intro cur c h; simp [fwdWalkFuel] at h
  | succ n ih =>
    intro cur c h
    unfold fwdWalkFuel at h ⊢
    by_cases h1 : hi < cur
    · rw [if_pos h1] at h ⊢; exact h
    · rw [if_neg h1] at h ⊢
      by_cases h2 : sameDay (step cur) cur
      · rw [if_pos h2] at h ⊢; exact h
      · rw [if_neg h2] at h ⊢
        rcases hr : fwdWalkFuel step lo hi n (step cur) with _ | c'
        · rw [hr] at h; exact absurd h (by simp)
        · rw [hr] at h
          rw [ih (step cur) c' hr]
          exact h

/-- Fuel-indexed mirror of `billContribution`. -/
def billContributionFuel (n : Nat) (lo hi : Int) (b : Bill) : Option ℚ :=
  match b.amount with
  | none => some 0
  | some amt =>
    if b.frequency = "one-off" then
      match b.dueDate with
      | none => some 0
      | some ts => some (if lo ≤ ts ∧ ts ≤ hi then amt else 0)
    else if b.frequency = "monthly" then
      match b.dueDate with
      | none => some 0
      | some d =>
        if d < 1 ∨ 31 < d then some 0
        else
          match fwdWalkFuel monthStep lo hi n
              (if setDateMs lo d < lo then monthStep (setDateMs lo d)
               else setDateMs lo d) with
          | none => none
          | some c => some ((c : ℚ) * amt)
    else if b.frequency = "weekly" then
      match fwdWalkFuel weekStep lo hi n (bwdWalk weekBack lo 1000 b.creationTime) with
      | none => none
      | some c => some ((c : ℚ) * amt)
    else if b.frequency = "fortnightly" then
      match fwdWalkFuel twoWeekStep lo hi n (bwdWalk twoWeekStep lo 1000 b.creationTime) with
      | none => none
      | some c => some ((c : ℚ) * amt)
    else some 0

theorem billContributionFuel_agree (n : Nat) (lo hi : Int) (b : Bill) (v : ℚ)
    (h : billContributionFuel n lo hi b = some v) : billContribution lo hi b = v := by
  unfold billContributionFuel at h
  unfold billContribution monthlyCount weeklyCount fortnightlyCount
  rcases b with ⟨name, amount, frequency, dueDate, creationTime, isActive⟩
  rcases amount with _ | amt
  · simpa using h
  · dsimp only at h ⊢
    by_cases h1 : frequency = "one-off"
    · rw [if_pos h1] at h ⊢
      rcases dueDate with _ | ts <;> simpa using h
    · rw [if_neg h1] at h ⊢
      by_cases h2 : frequency = "monthly"
      · rw [if_pos h2] at h ⊢
        rcases dueDate with _ | d
        · simpa using h
        · dsimp only at h ⊢
          by_cases h3 : d < 1 ∨ 31 < d
          · rw [if_pos h3] at h ⊢; simpa using h
          · rw [if_neg h3] at h ⊢
            rcases hr : fwdWalkFuel monthStep lo hi n
                (if setDateMs lo d < lo then monthStep (setDateMs lo d)
                 else setDateMs lo d) with _ | c
            · rw [hr] at h; exact absurd h (by simp)
            · rw [hr] at h
              rw [fwdWalkFuel_agree monthStep lt_monthStep lo hi n _ c hr]
              simpa using h
      · rw [if_neg h2] at h ⊢
        by_cases h4 : frequency = "weekly"
        · rw [if_pos h4] at h ⊢
          rcases hr : fwdWalkFuel weekStep lo hi n
              (bwdWalk weekBack lo 1000 creationTime) with _ | c
          · rw [hr] at h; exact absurd h (by simp)
          · rw [hr] at h
            rw [fwdWalkFuel_agree weekStep lt_weekStep lo hi n _ c hr]
            simpa using h
        · rw [if_neg h4] at h ⊢
          by_cases h5 : frequency = "fortnightly"
          · rw [if_pos h5] at h ⊢
            rcases hr : fwdWalkFuel twoWeekStep lo hi n
                (bwdWalk twoWeekStep lo 1000 creationTime) with _ | c
            · rw [hr] at h; exact absurd h (by simp)
            · rw [hr] at h
              rw [fwdWalkFuel_agree twoWeekStep lt_twoWeekStep lo hi n _ c hr]
              simpa using h
          · rw [if_neg h5] at h ⊢
            simpa using h

theorem billContributionFuel_exists (lo hi : Int) (b : Bill) :
    ∃ n : Nat, billContributionFuel n lo hi b = some (billContribution lo hi b) := by
  rcases b with ⟨name, amount, frequency, dueDate, creationTime, isActive⟩
  rcases amount with _ | amt
  · exact ⟨0, by simp [billContributionFuel, billContribution]⟩
  by_cases h1 : frequency = "one-off"
  · rcases dueDate with _ | ts
    · exact ⟨0, by simp [billContributionFuel, billContribution, h1]⟩
    · exact ⟨0, by simp [billContributionFuel, billContribution, h1]⟩
  by_cases h2 : frequency = "monthly"
  · rcases dueDate with _ | d
    · exact ⟨0, by simp [billContributionFuel, billContribution, h1, h2]⟩
    · by_cases h3 : d < 1 ∨ 31 < d
      · exact ⟨0, by simp [billContributionFuel, billContribution, h1, h2, h3]⟩
      · obtain ⟨n, hn⟩ := fwdWalkFuel_exists monthStep lt_monthStep lo hi
          (if setDateMs lo d < lo then monthStep (setDateMs lo d) else setDateMs lo d)
        exact ⟨n, by
          simp [billContributionFuel, billContribution, monthlyCount, h1, h2, h3, hn]⟩
  by_cases h4 : frequency = "weekly"
  · obtain ⟨n, hn⟩ := fwdWalkFuel_exists weekStep lt_weekStep lo hi
      (bwdWalk weekBack lo 1000 creationTime)
    exact ⟨n, by
      simp [billContributionFuel, billContribution, weeklyCount, h1, h2, h4, hn]⟩
  by_cases h5 : frequency = "fortnightly"
  · obtain ⟨n, hn⟩ := fwdWalkFuel_exists twoWeekStep lt_twoWeekStep lo hi
      (bwdWalk twoWeekStep lo 1000 creationTime)
    exact ⟨n, by
      simp [billContributionFuel, billContribution, fortnightlyCount, h1, h2, h4, h5, hn]⟩
  · exact ⟨0, by simp [billContributionFuel, billContribution, h1, h2, h4, h5]⟩

theorem billContributionFuel_mono (n : Nat) (lo hi : Int) (b : Bill) (v : ℚ)
    (h : billContributionFuel n lo hi b = some v) :
    billContributionFuel (n + 1) lo hi b = some v := by
  unfold billContributionFuel at h ⊢
  rcases b with ⟨name, amount, frequency, dueDate, creationTime, isActive⟩
  rcases amount with _ | amt
  · exact h
  · dsimp only at h ⊢
    by_cases h1 : frequency = "one-off"
    · rw [if_pos h1] at h ⊢; exact h
    · rw [if_neg h1] at h ⊢
      by_cases h2 : frequency = "monthly"
      · rw [if_pos h2] at h ⊢
        rcases dueDate with _ | d
        · exact h
        · dsimp only at h ⊢
          by_cases h3 : d < 1 ∨ 31 < d
          · rw [if_pos h3] at h ⊢; exact h
          · rw [if_neg h3] at h ⊢
            rcases hr : fwdWalkFuel monthStep lo hi n
                (if setDateMs lo d < lo then monthStep (setDateMs lo d)
                 else setDateMs lo d) with _ | c
            · rw [hr] at h; exact absurd h (by simp)
            · rw [hr] at h
              rw [fwdWalkFuel_mono monthStep lo hi n _ c hr]
              exact h
      · rw [if_neg h2] at h ⊢
        by_cases h4 : frequency = "weekly"
        · rw [if_pos h4] at h ⊢
          rcases hr : fwdWalkFuel weekStep lo hi n
              (bwdWalk weekBack lo 1000 creationTime) with _ | c
          · rw [hr] at h; exact absurd h (by simp)
          · rw [hr] at h
            rw [fwdWalkFuel_mono weekStep lo hi n _ c hr]
            exact h
        · rw [if_neg h4] at h ⊢
          by_cases h5 : frequency = "fortnightly"
          · rw [if_pos h5] at h ⊢
            rcases hr : fwdWalkFuel twoWeekStep lo hi n
                (bwdWalk twoWeekStep lo 1000 creationTime) with _ | c
            · rw [hr] at h; exact absurd h (by simp)
            · rw [hr] at h
              rw [fwdWalkFuel_mono twoWeekStep lo hi n _ c hr]
              exact h
          · rw [if_neg h5] at h ⊢; exact h

/-- Fuel-indexed mirror of `calculateUpcomingBillsTotal`. -/
def calculateUpcomingBillsTotalFuel (n : Nat) (bills : List Bill) (range : DateRange) :
    Option ℚ :=
  bills.foldl
    (fun acc b =>
      match acc, billContributionFuel n (startOfDayMs range.startDate)
          (endOfDayMs range.endDate) b with
      | some a, some c => some (a + c)
      | _, _ => none)
    (some 0)

theorem billContributionFuel_mono_le (m n : Nat) (lo hi : Int) (b : Bill) (v : ℚ)
    (hmn : m ≤ n) (h : billContributionFuel m lo hi b = some v) :
    billContributionFuel n lo hi b = some v := by
  induction n with
  | zero =>
    have : m = 0 := Nat.le_zero.mp hmn
    exact this ▸ h
  | succ n ih =>
    rcases Nat.lt_or_ge m (n + 1) with hlt | hge
    · exact billContributionFuel_mono n lo hi b v (ih (by omega))
    · have : m = n + 1 := by omega
      exact this ▸ h

theorem totalFold_none (n : Nat) (lo hi : Int) (bills : List Bill) :
    bills.foldl
      (fun acc b =>
        match acc, billContributionFuel n lo hi b with
        | some a, some c => some (a + c)
        | _, _ => none)
      none = none := by
  induction bills with
  | nil => rfl
  | cons b bs ih => simpa using ih

theorem totalFold_agree (n : Nat) (lo hi : Int) :
    ∀ (bills : List Bill) (acc v : ℚ),
      bills.foldl
        (fun acc b =>
          match acc, billContributionFuel n lo hi b with
          | some a, some c => some (a + c)
          | _, _ => none)
        (some acc) = some v →
      bills.foldl (fun acc b => acc + billContribution lo hi b) acc = v := by
  intro bills
  induction bills with
  | nil => intro acc v h; simpa using h
  | cons b bs ih =>
    intro acc v h
    simp only [List.foldl] at h ⊢
    rcases hr : billContributionFuel n lo hi b with _ | c
    · rw [hr] at h
      dsimp only at h
      rw [totalFold_none] at h
      exact absurd h (by simp)
    · rw [hr] at h
      dsimp only at h
      rw [billContributionFuel_agree n lo hi b c hr]
      exact ih (acc + c) v h

theorem totalFold_mono (n : Nat) (lo hi : Int) :
    ∀ (bills : List Bill) (acc v : ℚ),
      bills.foldl
        (fun acc b =>
          match acc, billContributionFuel n lo hi b with
          | some a, some c => some (a + c)
          | _, _ => none)
        (some acc) = some v →
      bills.foldl
        (fun acc b =>
          match acc, billContributionFuel (n + 1) lo hi b with
          | some a, some c => some (a + c)
          | _, _ => none)
        (some acc) = some v := by
  intro bills
  induction bills with
  | nil => intro acc v h; exact h
  | cons b bs ih =>
    intro acc v h
    simp only [List.foldl] at h ⊢
    rcases hr : billContributionFuel n lo hi b with _ | c
    · rw [hr] at h
      dsimp only at h
      rw [totalFold_none] at h
      exact absurd h (by simp)
    · rw [hr] at h
      rw [billContributionFuel_mono n lo hi b c hr]
      dsimp only at h ⊢
      exact ih (acc + c) v h

theorem totalFold_mono_le (m n : Nat) (lo hi : Int) (bills : List Bill) (acc v : ℚ)
    (hmn : m ≤ n)
    (h : bills.foldl
        (fun acc b =>
          match acc, billContributionFuel m lo hi b with
          | some a, some c => some (a + c)
          | _, _ => none)
        (some acc) = some v) :
    bills.foldl
      (fun acc b =>
        match acc, billContributionFuel n lo hi b with
        | some a, some c => some (a + c)
        | _, _ => none)
      (some acc) = some v := by
  induction n with
  | zero =>
    have : m = 0 := Nat.le_zero.mp hmn
    exact this ▸ h
  | succ n ih =>
    rcases Nat.lt_or_ge m (n + 1) with hlt | hge
    · exact totalFold_mono n lo hi bills acc v (ih (by omega))
    · have : m = n + 1 := by omega
      exact this ▸ h

theorem totalFold_exists (lo hi : Int) :
    ∀ (bills : List Bill) (acc : ℚ),
      ∃ n : Nat,
        bills.foldl
          (fun acc b =>
            match acc, billContributionFuel n lo hi b with
            | some a, some c => some (a + c)
            | _, _ => none)
          (some acc)
        = some (bills.foldl (fun acc b => acc + billContribution lo hi b) acc) := by
  intro bills
  induction bills with
  | nil => intro acc; exact ⟨0, rfl⟩
  | cons b bs ih =>
    intro acc
    obtain ⟨n1, h1⟩ := billContributionFuel_exists lo hi b
    obtain ⟨n2, h2⟩ := ih (acc + billContribution lo hi b)
    refine ⟨max n1 n2, ?_⟩
    simp only [List.foldl]
    rw [billContributionFuel_mono_le n1 (max n1 n2) lo hi b _ (le_max_left n1 n2) h1]
    dsimp only
    exact totalFold_mono_le n2 (max n1 n2) lo hi bs _ _ (le_max_right n1 n2) h2

/-- Whenever the fuel-indexed expander completes, it computes
`calculateUpcomingBillsTotal`. -/
theorem calculateUpcomingBillsTotalFuel_agree (n : Nat) (bills : List Bill)
    (range : DateRange) (v : ℚ)
    (h : calculateUpcomingBillsTotalFuel n bills range = some v) :
    calculateUpcomingBillsTotal bills range = v := by
  unfold calculateUpcomingBillsTotalFuel at h
  unfold calculateUpcomingBillsTotal
  exact totalFold_agree n (startOfDayMs range.startDate) (endOfDayMs range.endDate)
    bills 0 v h

/-! ### Claims C6..C9: cycle conversion and schedule generator basics -/

/-- The multiplier table shared by `calculateAnnualSalary` (multiplication)
and `calculateTargetCycleAmount` (division). -/
def cycleMultiplier (f : String) : ℚ :=
  if f = "monthly" then 12 else if f = "fortnightly" then 26 else 52

/-- A frequency string accepted by both cycle-conversion functions. -/
def recognizedFrequency (f : String) : Prop :=
  f = "monthly" ∨ f = "fortnightly" ∨ f = "weekly"

instance (f : String) : Decidable (recognizedFrequency f) := by
  unfold recognizedFrequency; infer_instance

/-- Valid-input computation rule for `calculateAnnualSalary`. -/
theorem calculateAnnualSalary_pos (x : ℚ) (s : String) (hx : 0 < x)
    (hs : recognizedFrequency s) :
    calculateAnnualSalary (some x) (some s) = some (x * cycleMultiplier s) := by
  rcases hs with h | h | h <;> subst h <;>
  · unfold calculateAnnualSalary cycleMultiplier
    dsimp only
    rw [if_neg (by push_neg; exact ⟨hx, by decide⟩)]
    rfl

/-- Valid-input computation rule for `calculateTargetCycleAmount`. -/
theorem calculateTargetCycleAmount_pos (x : ℚ) (s : String) (hx : 0 < x)
    (hs : recognizedFrequency s) :
    calculateTargetCycleAmount (some x) (some s) = some (x / cycleMultiplier s) := by
  rcases hs with h | h | h <;> subst h <;>
  · unfold calculateTargetCycleAmount cycleMultiplier
    dsimp only
    rw [if_neg (by push_neg; exact ⟨hx, by decide⟩)]
    rfl

theorem calculateAnnualSalary_nonpos (x : ℚ) (s : String) (hx : x ≤ 0) :
    calculateAnnualSalary (some x) (some s) = none := by
  unfold calculateAnnualSalary
  dsimp only
  rw [if_pos (Or.inl hx)]

theorem calculateTargetCycleAmount_nonpos (x : ℚ) (s : String) (hx : x ≤ 0) :
    calculateTargetCycleAmount (some x) (some s) = none := by
  unfold calculateTargetCycleAmount
  dsimp only
  rw [if_pos (Or.inl hx)]

theorem calculateAnnualSalary_unrecognized (x : ℚ) (s : String)
    (hs : ¬ recognizedFrequency s) :
    calculateAnnualSalary (some x) (some s) = none := by
  unfold recognizedFrequency at hs
  push_neg at hs
  unfold calculateAnnualSalary
  dsimp only
  by_cases hg : x ≤ 0 ∨ s.isEmpty = true
  · rw [if_pos hg]
  · rw [if_neg hg, if_neg hs.1, if_neg hs.2.1, if_neg hs.2.2]

theorem calculateTargetCycleAmount_unrecognized (x : ℚ) (s : String)
    (hs : ¬ recognizedFrequency s) :
    calculateTargetCycleAmount (some x) (some s) = none := by
  unfold recognizedFrequency at hs
  push_neg at hs
  unfold calculateTargetCycleAmount
  dsimp only
  by_cases hg : x ≤ 0 ∨ s.isEmpty = true
  · rw [if_pos hg]
  · rw [if_neg hg, if_neg hs.1, if_neg hs.2.1, if_neg hs.2.2]

theorem cycleMultiplier_pos (s : String) (hs : recognizedFrequency s) :
    0 < cycleMultiplier s := by
  rcases hs with h | h | h <;> subst h
  · exact (by norm_num : (0:ℚ) < 12)
  · exact (by norm_num : (0:ℚ) < 26)
  · exact (by norm_num : (0:ℚ) < 52)

/-- C6: for every positive amount and recognized frequency, annualizing and
then deriving the target-cycle amount with the same frequency returns the
original amount exactly. -/
theorem claim_C6_round_trip (a : ℚ) (f : String) (ha : 0 < a)
    (hf : recognizedFrequency f) :
    calculateTargetCycleAmount (calculateAnnualSalary (some a) (some f)) (some f)
      = some a := by
  have hm := cycleMultiplier_pos f hf
  rw [calculateAnnualSalary_pos a f ha hf,
    calculateTargetCycleAmount_pos (a * cycleMultiplier f) f (by positivity) hf]
  congr 1
  field_simp

/-- Witness for C6 at `amount = 5000`, `frequency = "monthly"`. -/
theorem claim_C6_round_trip_witness :
    calculateTargetCycleAmount (calculateAnnualSalary (some 5000) (some "monthly"))
      (some "monthly") = some 5000 :=
  claim_C6_round_trip 5000 "monthly" (by norm_num) (Or.inl rfl)

/-- C7: both conversion functions return `none` (and never throw — they are
total functions) exactly when the amount input is missing or non-positive
or the frequency input is missing or unrecognized; otherwise
`calculateAnnualSalary` multiplies and `calculateTargetCycleAmount`
divides by the multiplier table (monthly 12, fortnightly 26, weekly 52). -/
theorem claim_C7_null_exactly :
    (∀ f, calculateAnnualSalary none f = none) ∧
    (∀ a, calculateAnnualSalary a none = none) ∧
    (∀ (x : ℚ) (s : String), x ≤ 0 → calculateAnnualSalary (some x) (some s) = none) ∧
    (∀ (x : ℚ) (s : String), ¬ recognizedFrequency s →
      calculateAnnualSalary (some x) (some s) = none) ∧
    (∀ (x : ℚ) (s : String), 0 < x → recognizedFrequency s →
      calculateAnnualSalary (some x) (some s) = some (x * cycleMultiplier s)) ∧
    (∀ f, calculateTargetCycleAmount none f = none) ∧
    (∀ a, calculateTargetCycleAmount a none = none) ∧
    (∀ (x : ℚ) (s : String), x ≤ 0 →
      calculateTargetCycleAmount (some x) (some s) = none) ∧
    (∀ (x : ℚ) (s : String), ¬ recognizedFrequency s →
      calculateTargetCycleAmount (some x) (some s) = none) ∧
    (∀ (x : ℚ) (s : String), 0 < x → recognizedFrequency s →
      calculateTargetCycleAmount (some x) (some s) = some (x / cycleMultiplier s)) := by
  refine ⟨fun f => by cases f <;> rfl, fun a => by cases a <;> rfl,
    fun x s hx => calculateAnnualSalary_nonpos x s hx,
    fun x s hs => calculateAnnualSalary_unrecognized x s hs,
    fun x s hx hs => calculateAnnualSalary_pos x s hx hs,
    fun f => by cases f <;> rfl, fun a => by cases a <;> rfl,
    fun x s hx => calculateTargetCycleAmount_nonpos x s hx,
    fun x s hs => calculateTargetCycleAmount_unrecognized x s hs,
    fun x s hx hs => calculateTargetCycleAmount_pos x s hx hs⟩

/-- Witness for C7: a non-positive amount and an unrecognized frequency
yield `none`; the valid fortnightly division case yields the annual amount
over 26. -/
theorem claim_C7_null_exactly_witness :
    calculateAnnualSalary (some (-5)) (some "monthly") = none ∧
    calculateAnnualSalary (some 5000) (some "yearly") = none ∧
    calculateTargetCycleAmount (some 60000) (some "fortnightly")
      = some (60000 / 26) := by
  refine ⟨?_, ?_, ?_⟩
  · exact claim_C7_null_exactly.2.2.1 (-5) "monthly" (by norm_num)
  · exact claim_C7_null_exactly.2.2.2.1 5000 "yearly" (by
      unfold recognizedFrequency
      simp)
  · have h := claim_C7_null_exactly.2.2.2.2.2.2.2.2.2 60000 "fortnightly"
      (by norm_num) (Or.inr (Or.inl rfl))
    rw [h]
    rfl

/-- C8: `generateProjectedSchedule` returns the empty schedule (and never
throws — it is a total function) whenever the desired frequency, day of
week or amount is absent, or the day or frequency is not recognized. -/
theorem claim_C8_incomplete_settings_empty (s : Settings) (bills : List Bill)
    (count : Nat) (now : Int)
    (h : s.desiredPayFrequency = none ∨
         s.desiredPayDayOfWeek = none ∨
         s.desiredPayAmount = none ∨
         (∀ f, s.desiredPayFrequency = some f →
            f.isEmpty ∨ (asciiLower f ≠ "weekly" ∧ asciiLower f ≠ "fortnightly")) ∨
         (∀ d, s.desiredPayDayOfWeek = some d →
            d.isEmpty ∨ dayOfWeekMap (asciiLower d) = none)) :
    generateProjectedSchedule s bills count now = [] := by
  rcases s with ⟨freq, day, amt⟩
  rcases freq with _ | f
  · rfl
  rcases day with _ | d
  · unfold generateProjectedSchedule; rfl
  rcases amt with _ | a
  · unfold generateProjectedSchedule; rfl
  unfold generateProjectedSchedule
  dsimp only at h ⊢
  rcases h with h | h | h | h | h
  · exact absurd h (by simp)
  · exact absurd h (by simp)
  · exact absurd h (by simp)
  · rcases h f rfl with he | ⟨h1, h2⟩
    · rw [if_pos (Or.inl he)]
    · by_cases he : f.isEmpty ∨ d.isEmpty
      · rw [if_pos he]
      · rw [if_neg he]
        cases hm : dayOfWeekMap (asciiLower d) with
        | none => rfl
        | some target =>
          dsimp only
          rw [if_neg (by simpa using h1), if_neg (by simpa using h2)]
  · rcases h d rfl with he | hm
    · by_cases hf : f.isEmpty
      · rw [if_pos (Or.inl hf)]
      · rw [if_pos (Or.inr he)]
    · by_cases he : f.isEmpty ∨ d.isEmpty
      · rw [if_pos he]
      · rw [if_neg he, hm]

/-- Witness for C8: settings with no desired day of week produce an empty
schedule. -/
theorem claim_C8_incomplete_settings_empty_witness :
    generateProjectedSchedule ⟨some "weekly", none, some 100⟩ [] 5 1713139200000 = [] :=
  claim_C8_incomplete_settings_empty ⟨some "weekly", none, some 100⟩ [] 5 1713139200000
    (Or.inr (Or.inl rfl))

/-- Every item pushed by the schedule loop carries the desired amount and
the exact (unclamped) difference as its leftover. -/
theorem scheduleLoop_mem (bills : List Bill) (amt : ℚ) (intervalDays : Int) :
    ∀ (n : Nat) (cur : Int) (item : ProjectedScheduleItem),
      item ∈ scheduleLoop bills amt intervalDays n cur →
      item.allowanceAmount = amt ∧
      item.leftoverForPeriod = item.allowanceAmount - item.billsDueInPeriod := by
  intro n
  induction n with
  | zero => intro cur item h; exact absurd h (by simp [scheduleLoop])
  | succ n ih =>
    intro cur item h
    rw [scheduleLoop] at h
    rcases List.mem_cons.mp h with h | h
    · subst h
      exact ⟨rfl, rfl⟩
    · exact ih _ item h

/-- C9: every item of a generated schedule has
`leftoverForPeriod = allowanceAmount - billsDueInPeriod` exactly (negative
values are kept as-is, no clamping), and its `allowanceAmount` is the
settings' `desiredPayAmount` (hence constant across items). -/
theorem claim_C9_leftover_exact (s : Settings) (bills : List Bill) (count : Nat)
    (now : Int) (item : ProjectedScheduleItem)
    (h : item ∈ generateProjectedSchedule s bills count now) :
    item.leftoverForPeriod = item.allowanceAmount - item.billsDueInPeriod ∧
    s.desiredPayAmount = some item.allowanceAmount := by
  rcases s with ⟨freq, day, amt⟩
  rcases freq with _ | f
  · exact absurd h (by simp [generateProjectedSchedule])
  rcases day with _ | d
  · exact absurd h (by unfold generateProjectedSchedule; simp)
  rcases amt with _ | a
  · exact absurd h (by unfold generateProjectedSchedule; simp)
  unfold generateProjectedSchedule at h
  dsimp only at h ⊢
  by_cases he : f.isEmpty ∨ d.isEmpty
  · rw [if_pos he] at h
    exact absurd h (by simp)
  rw [if_neg he] at h
  cases hm : dayOfWeekMap (asciiLower d) with
  | none => rw [hm] at h; exact absurd h (by simp)
  | some target =>
    rw [hm] at h
    dsimp only at h
    by_cases hw : asciiLower f = "weekly"
    · rw [if_pos hw] at h
      obtain ⟨h1, h2⟩ := scheduleLoop_mem bills a 7 count _ item h
      exact ⟨h2, by rw [h1]⟩
    · rw [if_neg hw] at h
      by_cases hfn : asciiLower f = "fortnightly"
      · rw [if_pos hfn] at h
        obtain ⟨h1, h2⟩ := scheduleLoop_mem bills a 14 count _ item h
        exact ⟨h2, by rw [h1]⟩
      · rw [if_neg hfn] at h
        exact absurd h (by simp)

/-- Witness for C9: the single item projected for a Monday schedule. -/
theorem claim_C9_leftover_exact_witness :
    ({ allowanceDate := 1713744000000, allowanceAmount := 100,
       billsDueInPeriod := calculateBillsBetweenDates [] 1713744000000 1714348800000,
       leftoverForPeriod :=
         100 - calculateBillsBetweenDates [] 1713744000000 1714348800000 }
      : ProjectedScheduleItem).leftoverForPeriod
      = ({ allowanceDate := 1713744000000, allowanceAmount := 100,
           billsDueInPeriod := calculateBillsBetweenDates [] 1713744000000 1714348800000,
           leftoverForPeriod :=
             100 - calculateBillsBetweenDates [] 1713744000000 1714348800000 }
          : ProjectedScheduleItem).allowanceAmount
        - ({ allowanceDate := 1713744000000, allowanceAmount := 100,
             billsDueInPeriod := calculateBillsBetweenDates [] 1713744000000 1714348800000,
             leftoverForPeriod :=
               100 - calculateBillsBetweenDates [] 1713744000000 1714348800000 }
            : ProjectedScheduleItem).billsDueInPeriod ∧
    (Settings.mk (some "weekly") (some "monday") (some 100)).desiredPayAmount
      = some ({ allowanceDate := 1713744000000, allowanceAmount := 100,
                billsDueInPeriod := calculateBillsBetweenDates [] 1713744000000 1714348800000,
                leftoverForPeriod :=
                  100 - calculateBillsBetweenDates [] 1713744000000 1714348800000 }
              : ProjectedScheduleItem).allowanceAmount :=
  claim_C9_leftover_exact ⟨some "weekly", some "monday", some 100⟩ [] 1 1713139200000 _
    (by
      have heq : generateProjectedSchedule ⟨some "weekly", some "monday", some 100⟩ []
          1 1713139200000
          = [{ allowanceDate := 1713744000000, allowanceAmount := 100,
               billsDueInPeriod := calculateBillsBetweenDates [] 1713744000000 1714348800000,
               leftoverForPeriod :=
                 100 - calculateBillsBetweenDates [] 1713744000000 1714348800000 }] := rfl
      rw [heq]
      exact List.mem_singleton.mpr rfl)

/-! ### Claims C1, C4, C5: expander isActive handling, monthly clamp, the
fortnightly backward-walk sign bug -/

/-- Shifting the accumulator out of the expander fold. -/
theorem totalFold_shift (lo hi : Int) :
    ∀ (bills : List Bill) (a : ℚ),
      bills.foldl (fun acc b => acc + billContribution lo hi b) a
        = a + bills.foldl (fun acc b => acc + billContribution lo hi b) 0 := by
  intro bills
  induction bills with
  | nil => intro a; simp
  | cons b bs ih =>
    intro a
    simp only [List.foldl]
    rw [ih (a + billContribution lo hi b), ih (0 + billContribution lo hi b)]
    ring

/-- C1 (code evaluated at the failing input): the expander has no
`isActive` check, so a bill explicitly marked inactive still contributes
its full amount — here the repo test-suite's "Cancelled Sub" bill
(monthly, day 10, $20, `isActive = false`) over April 2024, an interval
that does contain its day-10 occurrence.  The repo's own test
"should ignore inactive bills" passes only because its query interval
excludes the day-10 occurrence anyway. -/
theorem claim_C1_inactive_bill_counted :
    (Bill.mk "Cancelled Sub" (some 20) "monthly" (some 10) 1672531200000
      (some false)).isActive = some false ∧
    calculateUpcomingBillsTotal
      [Bill.mk "Cancelled Sub" (some 20) "monthly" (some 10) 1672531200000 (some false)]
      ⟨1711929600000, 1714435200000⟩ = 20 ∧
    (20 : ℚ) ≠ 0 := by
  refine ⟨rfl, ?_, by norm_num⟩
  have hcount : monthlyCount 10 (startOfDayMs 1711929600000) (endOfDayMs 1714435200000)
      = 1 := by
    unfold monthlyCount
    exact fwdWalkFuel_agree monthStep lt_monthStep _ _ 2 _ 1 (by decide)
  have heval : billContribution (startOfDayMs 1711929600000) (endOfDayMs 1714435200000)
      (Bill.mk "Cancelled Sub" (some 20) "monthly" (some 10) 1672531200000 (some false))
      = (monthlyCount 10 (startOfDayMs 1711929600000) (endOfDayMs 1714435200000) : ℚ)
        * 20 := by
    unfold billContribution
    dsimp only
    rw [if_neg (show ¬(("monthly" : String) = "one-off") by decide)]
    rw [if_pos (show ("monthly" : String) = "monthly" from rfl)]
    rw [if_neg (show ¬((10 : Int) < 1 ∨ 31 < (10 : Int)) by norm_num)]
  unfold calculateUpcomingBillsTotal
  rw [List.foldl_cons, List.foldl_nil]
  dsimp only
  rw [heval, hcount]
  norm_num

/-- C4 (code evaluated at the failing input): with today = 2025-04-15 and
`dayOfMonth = 31`, the monthly branch of `calculateNextPayday` returns
2025-05-01 — `setDate(31)` overflows April into May and the clamping loop
guard compares `getMonth()` against a value just read from the same date,
so the clamp to 2025-04-30 never runs. -/
theorem claim_C4_day31_not_clamped :
    calculateNextPayday 1744675200000 (some "monthly") (some 31) none
      = some 1746057600000 ∧
    (1746057600000 : Int) ≠ 1745971200000 := by
  exact ⟨by decide, by decide⟩

/-- When the anchor starts above the range start, the fortnightly
"backward" walk moves forward two weeks per iteration. -/
theorem bwdWalk_runaway (lo : Int) :
    ∀ (n : Nat) (cur : Int), lo < cur →
      bwdWalk twoWeekStep lo n cur = cur + n * (14 * dayMs) := by
  intro n
  induction n with
  | zero => intro cur h; simp [bwdWalk]
  | succ n ih =>
    intro cur h
    rw [bwdWalk, if_pos h]
    rw [ih (twoWeekStep cur) (by unfold twoWeekStep addWeeksMs dayMs at *; omega)]
    unfold twoWeekStep addWeeksMs dayMs
    push_cast
    ring

/-- C5: a fortnightly bill whose creation-time anchor lies strictly after
the start of day of the interval start contributes nothing whenever the
interval end is less than 2000 weeks past the anchor: the backward walk
adds 14 days per iteration (its sign argument is ignored), runs to its
1000-iteration cap, and leaves the forward walk starting beyond the
interval end. -/
theorem claim_C5_fortnightly_late_anchor (b : Bill) (range : DateRange)
    (hf : b.frequency = "fortnightly")
    (hanchor : startOfDayMs range.startDate < b.creationTime)
    (hend : endOfDayMs range.endDate < b.creationTime + 2000 * (7 * dayMs)) :
    billContribution (startOfDayMs range.startDate) (endOfDayMs range.endDate) b = 0 ∧
    ∀ bills : List Bill,
      calculateUpcomingBillsTotal (b :: bills) range
        = calculateUpcomingBillsTotal bills range := by
  have hzero : billContribution (startOfDayMs range.startDate)
      (endOfDayMs range.endDate) b = 0 := by
    unfold billContribution
    rcases b with ⟨name, amount, frequency, dueDate, creationTime, isActive⟩
    dsimp only at hf hanchor hend ⊢
    subst hf
    rcases amount with _ | amt
    · rfl
    dsimp only
    rw [if_neg (by decide), if_neg (by decide), if_neg (by decide), if_pos rfl]
    unfold fortnightlyCount
    rw [bwdWalk_runaway (startOfDayMs range.startDate) 1000 creationTime hanchor]
    rw [fwdWalk, if_pos (by unfold dayMs at *; push_cast; omega)]
    norm_num
  refine ⟨hzero, fun bills => ?_⟩
  unfold calculateUpcomingBillsTotal
  simp only [List.foldl]
  rw [hzero]
  norm_num

/-- Witness for C5: a fortnightly bill created 2024-04-15 against the
April 2024 interval. -/
theorem claim_C5_fortnightly_late_anchor_witness :
    billContribution (startOfDayMs 1711929600000) (endOfDayMs 1714435200000)
      (Bill.mk "Gym" (some 250) "fortnightly" none 1713139200000 none) = 0 ∧
    calculateUpcomingBillsTotal
      [Bill.mk "Gym" (some 250) "fortnightly" none 1713139200000 none]
      ⟨1711929600000, 1714435200000⟩
      = calculateUpcomingBillsTotal [] ⟨1711929600000, 1714435200000⟩ := by
  have h := claim_C5_fortnightly_late_anchor
    (Bill.mk "Gym" (some 250) "fortnightly" none 1713139200000 none)
    ⟨1711929600000, 1714435200000⟩ rfl (by decide) (by decide)
  exact ⟨h.1, h.2 []⟩

/-! ### Claim C3: first allowance date of the projected schedule -/

/-- `dayOfWeekMap` only ever returns day numbers 0..6. -/
theorem dayOfWeekMap_range (s : String) (t : Int) (h : dayOfWeekMap s = some t) :
    0 ≤ t ∧ t < 7 := by
  unfold dayOfWeekMap at h
  split_ifs at h <;> simp only [Option.some.injEq] at h <;> omega

/-- Counterexample to C3 as stated: today = 2024-04-15T10:00Z is a Monday
(weekday 1) and the desired pay day is "monday", yet the schedule's first
allowance date is 2024-04-22, not today's date 2024-04-15 — the schedule
never starts today even when today's weekday already matches. -/
theorem claim_C3_counterexample :
    dayOfWeekNum (startOfDayMs 1713175200000) = 1 ∧
    dayOfWeekMap (asciiLower "monday") = some 1 ∧
    (generateProjectedSchedule ⟨some "weekly", some "monday", some (100:ℚ)⟩ [] 1
        1713175200000).map (fun i => i.allowanceDate) = [1713744000000] ∧
    (1713744000000 : Int) ≠ startOfDayMs 1713175200000 := by
  refine ⟨by decide, rfl, rfl, by decide⟩

/-- C3 amended: for every complete settings record with a recognized pay
frequency (weekly or fortnightly — the first allowance date is computed
before the frequency switch) the schedule's first allowance date is the
first occurrence of the desired weekday STRICTLY after today — it lies in
(today, today + 7 days], falls on the desired weekday, and when today's
weekday already matches it is today + 7 days rather than today. -/
theorem claim_C3_first_allowance_strictly_after
    (freq dayName : String) (amt : ℚ) (bills : List Bill) (count : Nat) (now : Int)
    (target : Int)
    (hfreq : asciiLower freq = "weekly" ∨ asciiLower freq = "fortnightly")
    (hfe : freq.isEmpty = false)
    (hde : dayName.isEmpty = false)
    (hday : dayOfWeekMap (asciiLower dayName) = some target)
    (hcount : 0 < count) :
    ∃ d,
      ((generateProjectedSchedule ⟨some freq, some dayName, some amt⟩ bills count now).head?).map
          (fun i => i.allowanceDate) = some d ∧
      startOfDayMs now < d ∧ d ≤ addDaysMs (startOfDayMs now) 7 ∧
      dayOfWeekNum d = target ∧
      (dayOfWeekNum (startOfDayMs now) = target → d = addDaysMs (startOfDayMs now) 7) := by
  obtain ⟨n, rfl⟩ : ∃ n, count = n + 1 := ⟨count - 1, by omega⟩
  obtain ⟨ht0, ht7⟩ := dayOfWeekMap_range _ _ hday
  unfold generateProjectedSchedule
  dsimp only
  rw [if_neg (by simp [hfe, hde])]
  rw [hday]
  dsimp only
  rcases hfreq with hw | hf
  · rw [hw, if_pos rfl]
    refine ⟨addDaysMs (startOfDayMs now)
      (if (target - dayOfWeekNum (startOfDayMs now) + 7) % 7 = 0 then 7
       else (target - dayOfWeekNum (startOfDayMs now) + 7) % 7), ?_, ?_, ?_, ?_, ?_⟩
    · rw [scheduleLoop]
      rfl
    · simp only [dayOfWeekNum, addDaysMs, startOfDayMs, epochDay, dayMs]
      split_ifs <;> omega
    · simp only [dayOfWeekNum, addDaysMs, startOfDayMs, epochDay, dayMs]
      split_ifs <;> omega
    · simp only [dayOfWeekNum, addDaysMs, startOfDayMs, epochDay, dayMs]
      split_ifs <;> omega
    · intro hsame
      rw [hsame]
      norm_num
  · rw [hf, if_neg (by decide), if_pos rfl]
    refine ⟨addDaysMs (startOfDayMs now)
      (if (target - dayOfWeekNum (startOfDayMs now) + 7) % 7 = 0 then 7
       else (target - dayOfWeekNum (startOfDayMs now) + 7) % 7), ?_, ?_, ?_, ?_, ?_⟩
    · rw [scheduleLoop]
      rfl
    · simp only [dayOfWeekNum, addDaysMs, startOfDayMs, epochDay, dayMs]
      split_ifs <;> omega
    · simp only [dayOfWeekNum, addDaysMs, startOfDayMs, epochDay, dayMs]
      split_ifs <;> omega
    · simp only [dayOfWeekNum, addDaysMs, startOfDayMs, epochDay, dayMs]
      split_ifs <;> omega
    · intro hsame
      rw [hsame]
      norm_num

/-- Witness for the amended C3 at a concrete input: weekly pay on Mondays,
today = Monday 2024-04-15T10:00Z. -/
theorem claim_C3_first_allowance_strictly_after_witness :
    (asciiLower "weekly" = "weekly" ∨ asciiLower "weekly" = "fortnightly") ∧
    (∃ d,
      ((generateProjectedSchedule ⟨some "weekly", some "monday", some (100:ℚ)⟩ [] 1
          1713175200000).head?).map (fun i => i.allowanceDate) = some d ∧
      startOfDayMs 1713175200000 < d ∧ d ≤ addDaysMs (startOfDayMs 1713175200000) 7 ∧
      dayOfWeekNum d = 1 ∧
      (dayOfWeekNum (startOfDayMs 1713175200000) = 1 →
        d = addDaysMs (startOfDayMs 1713175200000) 7)) :=
  ⟨Or.inl rfl, claim_C3_first_allowance_strictly_after "weekly" "monday" 100 [] 1
    1713175200000 1 (Or.inl rfl) rfl rfl rfl (by decide)⟩

/-! ### Claim C10: the expander terminates on every input -/

/-- C10: for every bill list and interval the expander's loops exit after
finitely many iterations: some finite iteration budget `n` makes the
fuel-indexed mirror of `calculateUpcomingBillsTotal` (whose `none` value
means "budget exhausted before the loop conditions were reached") complete
with exactly the expander's total.  The backward anchor search is capped
at 1000 iterations by construction (`bwdWalk` is structurally recursive on
that cap), and each forward loop stops either past the interval end or as
soon as a date step fails to advance to a new day. -/
theorem claim_C10_expander_terminates (bills : List Bill) (range : DateRange) :
    ∃ n : Nat, calculateUpcomingBillsTotalFuel n bills range
      = some (calculateUpcomingBillsTotal bills range) := by
  obtain ⟨n, h⟩ := totalFold_exists (startOfDayMs range.startDate)
    (endOfDayMs range.endDate) bills 0
  refine ⟨n, ?_⟩
  unfold calculateUpcomingBillsTotalFuel calculateUpcomingBillsTotal
  exact h

/-! ### Claim C2: interval additivity of the expander

The monthly walk clamps day-of-month with `min` at each `addMonths` step,
so a monthly bill due on day 29, 30 or 31 drifts onto earlier days after
passing a short month and the whole-interval count can exceed the sum of
the sub-interval counts.  For the remaining bill shapes additivity is
provable; the development below establishes it and exhibits the day-31
counterexample. -/


theorem weekStep_day_advances (u : Int) : ¬ sameDay (weekStep u) u := by
  unfold sameDay weekStep addWeeksMs epochDay dayMs
  omega

theorem twoWeekStep_day_advances (u : Int) : ¬ sameDay (twoWeekStep u) u := by
  unfold sameDay twoWeekStep addWeeksMs epochDay dayMs
  omega

theorem monthStep_day_advances (u : Int) : ¬ sameDay (monthStep u) u := by
  have h := (lt_addMonthsMs_one u).2.1
  unfold sameDay monthStep
  omega

theorem fwdWalk_stop (step : Int → Int) (hstep : ∀ u, u < step u) (lo hi cur : Int)
    (h : hi < cur) : fwdWalk step hstep lo hi cur = 0 := by
  rw [fwdWalk, if_pos h]

theorem fwdWalk_go (step : Int → Int) (hstep : ∀ u, u < step u) (lo hi cur : Int)
    (h : ¬ hi < cur) :
    fwdWalk step hstep lo hi cur = (if lo ≤ cur then 1 else 0) +
      (if sameDay (step cur) cur then 0 else fwdWalk step hstep lo hi (step cur)) := by
  rw [fwdWalk, if_neg h]

theorem fwdWalk_lo_irrel (step : Int → Int) (hstep : ∀ u, u < step u) (lo lo' hi : Int) :
    ∀ cur, lo ≤ cur → lo' ≤ cur →
      fwdWalk step hstep lo hi cur = fwdWalk step hstep lo' hi cur := by
  suffices H : ∀ (n : Nat) (cur : Int), (hi + 1 - cur).toNat ≤ n → lo ≤ cur → lo' ≤ cur →
      fwdWalk step hstep lo hi cur = fwdWalk step hstep lo' hi cur by
    exact fun cur h1 h2 => H (hi + 1 - cur).toNat cur le_rfl h1 h2
  intro n
  induction n with
  | zero =>
    intro cur hn h1 h2
    have hhi : hi < cur := by omega
    rw [fwdWalk_stop step hstep lo hi cur hhi, fwdWalk_stop step hstep lo' hi cur hhi]
  | succ n ih =>
    intro cur hn h1 h2
    by_cases hhi : hi < cur
    · rw [fwdWalk_stop step hstep lo hi cur hhi, fwdWalk_stop step hstep lo' hi cur hhi]
    · rw [fwdWalk_go step hstep lo hi cur hhi, fwdWalk_go step hstep lo' hi cur hhi,
        if_pos h1, if_pos h2]
      congr 1
      by_cases hsd : sameDay (step cur) cur
      · rw [if_pos hsd, if_pos hsd]
      · rw [if_neg hsd, if_neg hsd]
        have hc := hstep cur
        exact ih (step cur) (by omega) (by omega) (by omega)

theorem fwdWalk_split (step : Int → Int) (hstep : ∀ u, u < step u) (lo mid hi : Int)
    (h1 : lo ≤ mid + 1) (h2 : mid ≤ hi) :
    ∀ cur, fwdWalk step hstep lo hi cur
      = fwdWalk step hstep lo mid cur + fwdWalk step hstep (mid + 1) hi cur := by
  suffices H : ∀ (n : Nat) (cur : Int), (hi + 1 - cur).toNat ≤ n →
      fwdWalk step hstep lo hi cur
        = fwdWalk step hstep lo mid cur + fwdWalk step hstep (mid + 1) hi cur by
    exact fun cur => H (hi + 1 - cur).toNat cur le_rfl
  intro n
  induction n with
  | zero =>
    intro cur hn
    have hhi : hi < cur := by omega
    rw [fwdWalk_stop step hstep lo hi cur hhi,
      fwdWalk_stop step hstep lo mid cur (by omega),
      fwdWalk_stop step hstep (mid + 1) hi cur hhi]
  | succ n ih =>
    intro cur hn
    by_cases hhi : hi < cur
    · rw [fwdWalk_stop step hstep lo hi cur hhi,
        fwdWalk_stop step hstep lo mid cur (by omega),
        fwdWalk_stop step hstep (mid + 1) hi cur hhi]
    by_cases hmid : mid < cur
    · have hp1 : fwdWalk step hstep lo mid cur = 0 :=
        fwdWalk_stop step hstep lo mid cur hmid
      rw [hp1, fwdWalk_lo_irrel step hstep lo (mid + 1) hi cur (by omega) (by omega)]
      omega
    · rw [fwdWalk_go step hstep lo hi cur hhi,
        fwdWalk_go step hstep lo mid cur hmid,
        fwdWalk_go step hstep (mid + 1) hi cur hhi,
        if_neg (by omega : ¬ mid + 1 ≤ cur)]
      by_cases hsd : sameDay (step cur) cur
      · rw [if_pos hsd, if_pos hsd, if_pos hsd]
      · rw [if_neg hsd, if_neg hsd, if_neg hsd]
        have hc := hstep cur
        rw [ih (step cur) (by omega)]
        omega

theorem fwdWalk_advance_below (step : Int → Int) (hstep : ∀ u, u < step u)
    (hsd : ∀ u, ¬ sameDay (step u) u) (lo hi cur : Int) (hcur : cur < lo) :
    fwdWalk step hstep lo hi cur = fwdWalk step hstep lo hi (step cur) := by
  by_cases hhi : hi < cur
  · rw [fwdWalk_stop step hstep lo hi cur hhi,
      fwdWalk_stop step hstep lo hi (step cur) (by have := hstep cur; omega)]
  · rw [fwdWalk_go step hstep lo hi cur hhi,
      if_neg (by omega : ¬ lo ≤ cur), if_neg (hsd cur)]
    omega

theorem fwdWalk_advance_iter (step : Int → Int) (hstep : ∀ u, u < step u)
    (hsd : ∀ u, ¬ sameDay (step u) u) (lo hi : Int) :
    ∀ (k : Nat) (cur : Int), (∀ i : Nat, i < k → step^[i] cur < lo) →
      fwdWalk step hstep lo hi cur = fwdWalk step hstep lo hi (step^[k] cur) := by
  intro k
  induction k with
  | zero => intro cur _; rfl
  | succ k ih =>
    intro cur hbelow
    rw [fwdWalk_advance_below step hstep hsd lo hi cur
      (by simpa using hbelow 0 (Nat.succ_pos k))]
    rw [ih (step cur) (fun i hi' => by
      have := hbelow (i + 1) (by omega)
      rwa [Function.iterate_succ_apply] at this)]
    rw [Function.iterate_succ_apply]

theorem bwdWalk_of_le (step : Int → Int) (lo : Int) (n : Nat) (cr : Int) (h : cr ≤ lo) :
    bwdWalk step lo n cr = cr := by
  cases n with
  | zero => rfl
  | succ n => rw [bwdWalk, if_neg (by omega)]

theorem weekStep_iterate (k : Nat) (t : Int) : weekStep^[k] t = t + k * (7 * dayMs) := by
  induction k generalizing t with
  | zero => simp
  | succ k ih =>
    rw [Function.iterate_succ_apply, ih]
    unfold weekStep addWeeksMs
    push_cast
    ring

theorem bwdWalk_weekBack_spec (lo : Int) : ∀ (n : Nat) (cr : Int),
    ∃ j : Nat, j ≤ n ∧ bwdWalk weekBack lo n cr = cr - (j : Int) * (7 * dayMs) ∧
      (∀ i : Nat, i < j → lo < cr - (i : Int) * (7 * dayMs)) ∧
      (j = n ∨ cr - (j : Int) * (7 * dayMs) ≤ lo) := by
  intro n
  induction n with
  | zero =>
    intro cr
    exact ⟨0, le_rfl, by simp [bwdWalk], by omega, Or.inl rfl⟩
  | succ n ih =>
    intro cr
    by_cases h : lo < cr
    · obtain ⟨j, hj, hres, hmin, hstop⟩ := ih (weekBack cr)
      have hwb : weekBack cr = cr - 7 * dayMs := by
        unfold weekBack addWeeksMs; ring
      rw [hwb] at hres hmin hstop
      refine ⟨j + 1, by omega, ?_, ?_, ?_⟩
      · rw [bwdWalk, if_pos h, hwb, hres]
        push_cast
        unfold dayMs
        ring
      · intro i hi
        cases i with
        | zero => simpa using h
        | succ i =>
          have := hmin i (by omega)
          push_cast at this ⊢
          unfold dayMs at *
          omega
      · rcases hstop with hcap | hle
        · exact Or.inl (by omega)
        · refine Or.inr ?_
          push_cast at hle ⊢
          unfold dayMs at *
          omega
    · exact ⟨0, by omega, by rw [bwdWalk, if_neg h]; simp, by omega, Or.inr (by omega)⟩

theorem weeklyCount_split (cr lo mid hi : Int) (h1 : lo ≤ mid + 1) (h2 : mid ≤ hi) :
    weeklyCount cr lo hi = weeklyCount cr lo mid + weeklyCount cr (mid + 1) hi := by
  obtain ⟨jL, hjL, hresL, hminL, hstopL⟩ := bwdWalk_weekBack_spec lo 1000 cr
  obtain ⟨j1, hj1, hres1, hmin1, hstop1⟩ := bwdWalk_weekBack_spec (mid + 1) 1000 cr
  unfold weeklyCount
  rw [fwdWalk_split weekStep lt_weekStep lo mid hi h1 h2]
  congr 1
  have hj : j1 ≤ jL := by
    by_contra hlt
    rcases hstopL with hcap | hle
    · omega
    · have := hmin1 jL (by omega)
      unfold dayMs at *
      omega
  rcases Nat.eq_or_lt_of_le hj with heq | hlt
  · rw [hresL, hres1, heq]
  · rcases hstop1 with hcap1 | hle1
    · omega
    have hcond : ∀ i : Nat, i < jL - j1 →
        weekStep^[i] (bwdWalk weekBack lo 1000 cr) < mid + 1 := by
      intro i hi'
      rw [weekStep_iterate, hresL]
      unfold dayMs at *
      push_cast at *
      omega
    rw [fwdWalk_advance_iter weekStep lt_weekStep weekStep_day_advances (mid + 1) hi
      (jL - j1) (bwdWalk weekBack lo 1000 cr) hcond]
    rw [weekStep_iterate, hresL, hres1]
    have hc : ((jL - j1 : Nat) : Int) = (jL : Int) - j1 := by omega
    rw [hc]
    ring_nf

theorem fortnightlyCount_split (cr lo mid hi : Int) (hcr : cr ≤ lo)
    (h1 : lo ≤ mid + 1) (h2 : mid ≤ hi) :
    fortnightlyCount cr lo hi
      = fortnightlyCount cr lo mid + fortnightlyCount cr (mid + 1) hi := by
  unfold fortnightlyCount
  rw [bwdWalk_of_le twoWeekStep lo 1000 cr hcr,
    bwdWalk_of_le twoWeekStep (mid + 1) 1000 cr (by omega)]
  exact fwdWalk_split twoWeekStep lt_twoWeekStep lo mid hi h1 h2 cr

def civilOfIdx (i d : Int) : Int := daysFromCivil (i / 12) (i % 12 + 1) d * dayMs

theorem civilOfIdx_day_lin (i d : Int) :
    civilOfIdx i d = civilOfIdx i 1 + (d - 1) * dayMs := by
  unfold civilOfIdx daysFromCivil dayMs
  ring

theorem monthStep_civilOfIdx (i d : Int) (hd1 : 1 ≤ d) (hd2 : d ≤ 28) :
    monthStep (civilOfIdx i d) = civilOfIdx (i + 1) d := by
  have hm1 : (1 : Int) ≤ i % 12 + 1 := by omega
  have hm2 : i % 12 + 1 ≤ 12 := by omega
  have h28 := daysInMonth_pos (i / 12) (i % 12 + 1)
  obtain ⟨hy, hm, hd, he, hr⟩ := civil_fields_of_valid (i / 12) (i % 12 + 1) d 0
    hm1 hm2 hd1 (by omega) le_rfl (by decide)
  have hback : daysFromCivil (i / 12) (i % 12 + 1) d * dayMs + 0 = civilOfIdx i d := by
    unfold civilOfIdx; ring
  rw [hback] at hy hm hd he hr
  unfold monthStep addMonthsMs
  rw [hy, hm, hd, hr]
  rw [show (12 * (i / 12) + (i % 12 + 1 - 1) + 1 : Int) = i + 1 from by omega]
  have h28' := daysInMonth_pos ((i + 1) / 12) ((i + 1) % 12 + 1)
  rw [min_eq_left (by omega)]
  unfold civilOfIdx
  ring

theorem monthStep_iterate_civilOfIdx (d : Int) (hd1 : 1 ≤ d) (hd2 : d ≤ 28) :
    ∀ (k : Nat) (i : Int), monthStep^[k] (civilOfIdx i d) = civilOfIdx (i + k) d := by
  intro k
  induction k with
  | zero => intro i; simp
  | succ k ih =>
    intro i
    rw [Function.iterate_succ_apply, monthStep_civilOfIdx i d hd1 hd2, ih (i + 1)]
    congr 1
    push_cast
    ring

theorem civilOfIdx_lt (d : Int) (hd1 : 1 ≤ d) (hd2 : d ≤ 28) (i j : Int) (h : i < j) :
    civilOfIdx i d < civilOfIdx j d := by
  have key : ∀ (k : Nat) (i : Int), civilOfIdx i d < civilOfIdx (i + (k + 1 : Nat)) d := by
    intro k
    induction k with
    | zero =>
      intro i
      have := lt_monthStep (civilOfIdx i d)
      rw [monthStep_civilOfIdx i d hd1 hd2] at this
      simpa using this
    | succ k ih =>
      intro i
      have h1 := ih i
      have h2 := lt_monthStep (civilOfIdx (i + (k + 1 : Nat)) d)
      rw [monthStep_civilOfIdx _ d hd1 hd2] at h2
      have : (i + (k + 1 : Nat) + 1 : Int) = i + ((k + 1 + 1 : Nat) : Int) := by
        push_cast; ring
      rw [this] at h2
      exact lt_trans h1 h2
  have hk : j = i + (((j - i - 1).toNat + 1 : Nat) : Int) := by
    push_cast
    omega
  rw [hk]
  exact key (j - i - 1).toNat i

theorem civilOfIdx_mono (d : Int) (hd1 : 1 ≤ d) (hd2 : d ≤ 28) (i j : Int) (h : i ≤ j) :
    civilOfIdx i d ≤ civilOfIdx j d := by
  rcases eq_or_lt_of_le h with rfl | hlt
  · exact le_rfl
  · exact le_of_lt (civilOfIdx_lt d hd1 hd2 i j hlt)

theorem civilOfIdx_month_len (i : Int) :
    civilOfIdx (i + 1) 1
      = civilOfIdx i 1 + daysInMonth (i / 12) (i % 12 + 1) * dayMs := by
  by_cases h : i % 12 = 11
  · -- December: wraps to January of the next year
    unfold civilOfIdx daysFromCivil
    rw [show ((i + 1) / 12 : Int) = i / 12 + 1 from by omega,
      show ((i + 1) % 12 + 1 : Int) = 1 from by omega,
      show (i % 12 + 1 : Int) = 12 from by omega]
    have hy := daysBeforeYear_succ (i / 12)
    have h12 : daysBeforeMonth (i / 12) 12
        = 334 + (if isLeapYear (i / 12) then 1 else 0) := by
      unfold daysBeforeMonth; norm_num
    have h1b : daysBeforeMonth (i / 12 + 1) 1 = 0 := by
      unfold daysBeforeMonth; norm_num
    have hdm : daysInMonth (i / 12) 12 = 31 := by
      unfold daysInMonth; norm_num
    rw [hy, h12, h1b, hdm]
    unfold dayMs
    split_ifs <;> ring
  · -- January .. November: next month of the same year
    unfold civilOfIdx
    rw [show ((i + 1) / 12 : Int) = i / 12 from by omega,
      show ((i + 1) % 12 + 1 : Int) = (i % 12 + 1) + 1 from by omega,
      show daysFromCivil (i / 12) (i % 12 + 1 + 1) 1
          = daysFromCivil (i / 12) (i % 12 + 1) 1
            + daysInMonth (i / 12) (i % 12 + 1) from by
        unfold daysFromCivil
        rw [daysBeforeMonth_succ (i / 12) (i % 12 + 1) (by omega) (by omega)]
        ring]
    ring

theorem midnight_month_char (y m dd : Int) (hm1 : 1 ≤ m) (hm2 : m ≤ 12)
    (hd1 : 1 ≤ dd) (hd2 : dd ≤ daysInMonth y m) :
    civilOfIdx (12 * y + m - 1) 1 ≤ daysFromCivil y m dd * dayMs ∧
    daysFromCivil y m dd * dayMs < civilOfIdx (12 * y + m - 1 + 1) 1 := by
  have hy : (12 * y + m - 1) / 12 = y := by omega
  have hm' : (12 * y + m - 1) % 12 + 1 = m := by omega
  have hlen := civilOfIdx_month_len (12 * y + m - 1)
  rw [hy, hm'] at hlen
  have hlin : civilOfIdx (12 * y + m - 1) dd
      = civilOfIdx (12 * y + m - 1) 1 + (dd - 1) * dayMs := civilOfIdx_day_lin _ _
  have hval : civilOfIdx (12 * y + m - 1) dd = daysFromCivil y m dd * dayMs := by
    unfold civilOfIdx
    rw [hy, hm']
  rw [hval] at hlin
  constructor
  · unfold dayMs at *
    omega
  · rw [hlen]
    unfold dayMs at *
    omega

theorem civilOfIdx_prev_lt_month_start (d : Int) (hd1 : 1 ≤ d) (hd2 : d ≤ 28) (j : Int) :
    civilOfIdx (j - 1) d < civilOfIdx j 1 := by
  have hlen := civilOfIdx_month_len (j - 1)
  have hlin := civilOfIdx_day_lin (j - 1) d
  have h28 := daysInMonth_pos ((j - 1) / 12) ((j - 1) % 12 + 1)
  rw [show (j - 1 + 1 : Int) = j from by ring] at hlen
  unfold dayMs at *
  omega

theorem monthly_align (d : Int) (hd1 : 1 ≤ d) (hd2 : d ≤ 28) (lo2 hi : Int)
    (i0 i1 : Int) (hle : i0 ≤ i1)
    (hbelow : ∀ i : Int, i0 ≤ i → i < i1 → civilOfIdx i d < lo2) :
    fwdWalk monthStep lt_monthStep lo2 hi (civilOfIdx i0 d)
      = fwdWalk monthStep lt_monthStep lo2 hi (civilOfIdx i1 d) := by
  have hcond : ∀ i : Nat, i < (i1 - i0).toNat →
      monthStep^[i] (civilOfIdx i0 d) < lo2 := by
    intro i hi'
    rw [monthStep_iterate_civilOfIdx d hd1 hd2 i i0]
    exact hbelow (i0 + i) (by omega) (by omega)
  rw [fwdWalk_advance_iter monthStep lt_monthStep monthStep_day_advances lo2 hi
    (i1 - i0).toNat (civilOfIdx i0 d) hcond]
  rw [monthStep_iterate_civilOfIdx d hd1 hd2 (i1 - i0).toNat i0]
  rw [show (i0 + ((i1 - i0).toNat : Int) : Int) = i1 from by omega]

theorem monthlyCount_split (d lo mid hi : Int) (hd1 : 1 ≤ d) (hd2 : d ≤ 28)
    (hlo : msOfDay lo = 0) (hmid1 : msOfDay (mid + 1) = 0)
    (h1 : lo ≤ mid + 1) (h2 : mid ≤ hi) :
    monthlyCount d lo hi = monthlyCount d lo mid + monthlyCount d (mid + 1) hi := by
  -- civil decompositions of the two midnights
  obtain ⟨Lm1, Lm2, Ld1, Ld2, Linv⟩ := civil_ms_spec lo
  obtain ⟨Mm1, Mm2, Md1, Md2, Minv⟩ := civil_ms_spec (mid + 1)
  obtain ⟨Ldec, _, _⟩ := epochDay_decomp lo
  obtain ⟨Mdec, _, _⟩ := epochDay_decomp (mid + 1)
  rw [hlo, add_zero] at Ldec
  rw [hmid1, add_zero] at Mdec
  have hLmid : lo = daysFromCivil (yearOf lo) (monthOf lo) (dayOfMonthOf lo) * dayMs := by
    rw [Linv, ← Ldec]
  have hMmid : mid + 1
      = daysFromCivil (yearOf (mid + 1)) (monthOf (mid + 1)) (dayOfMonthOf (mid + 1))
        * dayMs := by
    rw [Minv, ← Mdec]
  -- month indices
  have hiLdiv : (12 * yearOf lo + monthOf lo - 1) / 12 = yearOf lo := by omega
  have hiLmod : (12 * yearOf lo + monthOf lo - 1) % 12 + 1 = monthOf lo := by omega
  have hiMdiv : (12 * yearOf (mid + 1) + monthOf (mid + 1) - 1) / 12
      = yearOf (mid + 1) := by omega
  have hiMmod : (12 * yearOf (mid + 1) + monthOf (mid + 1) - 1) % 12 + 1
      = monthOf (mid + 1) := by omega
  have eL : setDateMs lo d = civilOfIdx (12 * yearOf lo + monthOf lo - 1) d := by
    unfold setDateMs civilOfIdx
    rw [hlo, add_zero, hiLdiv, hiLmod]
  have eM : setDateMs (mid + 1) d
      = civilOfIdx (12 * yearOf (mid + 1) + monthOf (mid + 1) - 1) d := by
    unfold setDateMs civilOfIdx
    rw [hmid1, add_zero, hiMdiv, hiMmod]
  have tL : lo = civilOfIdx (12 * yearOf lo + monthOf lo - 1) (dayOfMonthOf lo) := by
    unfold civilOfIdx
    rw [hiLdiv, hiLmod, ← hLmid]
  have tM : mid + 1 = civilOfIdx (12 * yearOf (mid + 1) + monthOf (mid + 1) - 1)
      (dayOfMonthOf (mid + 1)) := by
    unfold civilOfIdx
    rw [hiMdiv, hiMmod, ← hMmid]
  obtain ⟨charL1, charL2⟩ :=
    midnight_month_char (yearOf lo) (monthOf lo) (dayOfMonthOf lo) Lm1 Lm2 Ld1 Ld2
  obtain ⟨charM1, charM2⟩ := midnight_month_char (yearOf (mid + 1)) (monthOf (mid + 1))
    (dayOfMonthOf (mid + 1)) Mm1 Mm2 Md1 Md2
  rw [← hLmid] at charL1 charL2
  rw [← hMmid] at charM1 charM2
  -- abbreviate the indices
  generalize hIL : 12 * yearOf lo + monthOf lo - 1 = iL at eL tL charL1 charL2
  generalize hIM : 12 * yearOf (mid + 1) + monthOf (mid + 1) - 1 = iM
    at eM tM charM1 charM2
  have hiLM : iL ≤ iM := by
    by_contra hgt
    have : civilOfIdx (iM + 1) 1 ≤ civilOfIdx iL 1 :=
      civilOfIdx_mono 1 le_rfl (by norm_num) _ _ (by omega)
    omega
  -- split the whole walk
  unfold monthlyCount
  rw [fwdWalk_split monthStep lt_monthStep lo mid hi h1 h2]
  congr 1
  -- identify the two start points as lattice points
  rw [eL, eM]
  by_cases hpL : civilOfIdx iL d < lo <;> by_cases hpM : civilOfIdx iM d < mid + 1
  · rw [if_pos hpL, if_pos hpM, monthStep_civilOfIdx iL d hd1 hd2,
      monthStep_civilOfIdx iM d hd1 hd2]
    refine monthly_align d hd1 hd2 (mid + 1) hi (iL + 1) (iM + 1) (by omega) ?_
    intro i hge hlt
    exact lt_of_le_of_lt (civilOfIdx_mono d hd1 hd2 i iM (by omega)) hpM
  · rw [if_pos hpL, if_neg hpM, monthStep_civilOfIdx iL d hd1 hd2]
    have hlt' : iL + 1 ≤ iM := by
      rcases eq_or_lt_of_le hiLM with heq | h
      · exfalso; rw [heq] at hpL; omega
      · omega
    refine monthly_align d hd1 hd2 (mid + 1) hi (iL + 1) iM hlt' ?_
    intro i hge hlt
    have := civilOfIdx_prev_lt_month_start d hd1 hd2 iM
    have := civilOfIdx_mono d hd1 hd2 i (iM - 1) (by omega)
    omega
  · rw [if_neg hpL, if_pos hpM, monthStep_civilOfIdx iM d hd1 hd2]
    refine monthly_align d hd1 hd2 (mid + 1) hi iL (iM + 1) (by omega) ?_
    intro i hge hlt
    exact lt_of_le_of_lt (civilOfIdx_mono d hd1 hd2 i iM (by omega)) hpM
  · rw [if_neg hpL, if_neg hpM]
    refine monthly_align d hd1 hd2 (mid + 1) hi iL iM hiLM ?_
    intro i hge hlt
    have := civilOfIdx_prev_lt_month_start d hd1 hd2 iM
    have := civilOfIdx_mono d hd1 hd2 i (iM - 1) (by omega)
    omega

def splitSafe (lo : Int) (b : Bill) : Prop :=
  (b.frequency = "monthly" →
    match b.dueDate with
    | none => True
    | some d => d ≤ 28) ∧
  (b.frequency = "fortnightly" → b.creationTime ≤ lo)

theorem billContribution_split (lo mid hi : Int) (b : Bill)
    (hlo : msOfDay lo = 0) (hmid1 : msOfDay (mid + 1) = 0)
    (h1 : lo ≤ mid + 1) (h2 : mid ≤ hi)
    (hsafe : splitSafe lo b) :
    billContribution lo hi b
      = billContribution lo mid b + billContribution (mid + 1) hi b := by
  obtain ⟨hsm, hsf⟩ := hsafe
  rcases b with ⟨nm, amount, frequency, dueDate, creationTime, isActive⟩
  dsimp only at hsm hsf
  unfold billContribution
  dsimp only
  rcases amount with _ | amt
  · norm_num
  dsimp only
  by_cases hone : frequency = "one-off"
  · rw [if_pos hone, if_pos hone, if_pos hone]
    rcases dueDate with _ | ts
    · norm_num
    dsimp only
    split_ifs <;> (first | ring1 | (exfalso; omega))
  by_cases hmon : frequency = "monthly"
  · rw [if_neg hone, if_neg hone, if_neg hone, if_pos hmon, if_pos hmon, if_pos hmon]
    rcases dueDate with _ | dd
    · norm_num
    dsimp only
    by_cases hdok : dd < 1 ∨ 31 < dd
    · rw [if_pos hdok, if_pos hdok, if_pos hdok]
      norm_num
    · rw [if_neg hdok, if_neg hdok, if_neg hdok]
      have hd28 : dd ≤ 28 := hsm hmon
      rw [monthlyCount_split dd lo mid hi (by omega) hd28 hlo hmid1 h1 h2]
      push_cast
      ring
  by_cases hweek : frequency = "weekly"
  · rw [if_neg hone, if_neg hone, if_neg hone, if_neg hmon, if_neg hmon, if_neg hmon,
      if_pos hweek, if_pos hweek, if_pos hweek]
    rw [weeklyCount_split creationTime lo mid hi h1 h2]
    push_cast
    ring
  by_cases hfort : frequency = "fortnightly"
  · rw [if_neg hone, if_neg hone, if_neg hone, if_neg hmon, if_neg hmon, if_neg hmon,
      if_neg hweek, if_neg hweek, if_neg hweek, if_pos hfort, if_pos hfort, if_pos hfort]
    rw [fortnightlyCount_split creationTime lo mid hi (hsf hfort) h1 h2]
    push_cast
    ring
  · rw [if_neg hone, if_neg hone, if_neg hone, if_neg hmon, if_neg hmon, if_neg hmon,
      if_neg hweek, if_neg hweek, if_neg hweek, if_neg hfort, if_neg hfort, if_neg hfort]
    norm_num

/-- C2 amended: interval additivity of the expander holds for every list
of "split-safe" bills — bills that are one-off, weekly, monthly with a
due day at most 28 (or out of range, contributing 0), fortnightly with a
creation-time anchor on or before the start of the whole interval, of an
unrecognized frequency, or without an amount.  For dates `a ≤ b < c` (at
day granularity) the total over `[a, c]` equals the total over `[a, b]`
plus the total over `[b + 1 day, c]`. -/
theorem claim_C2_additivity_for_safe_bills (bills : List Bill) (a b c : Int)
    (hab : epochDay a ≤ epochDay b) (hbc : epochDay b < epochDay c)
    (hsafe : ∀ bl ∈ bills, splitSafe (startOfDayMs a) bl) :
    calculateBillsBetweenDates bills a c
      = calculateBillsBetweenDates bills a b
        + calculateBillsBetweenDates bills (b + dayMs) c := by
  have hM1 : startOfDayMs (b + dayMs) = endOfDayMs b + 1 := by
    simp only [endOfDayMs, startOfDayMs, epochDay, dayMs]
    omega
  have hlo : msOfDay (startOfDayMs a) = 0 := by
    simp only [msOfDay, endOfDayMs, startOfDayMs, epochDay, dayMs]
    omega
  have hmid1 : msOfDay (endOfDayMs b + 1) = 0 := by
    simp only [msOfDay, endOfDayMs, startOfDayMs, epochDay, dayMs]
    omega
  have h1 : startOfDayMs a ≤ endOfDayMs b + 1 := by
    simp only [endOfDayMs, startOfDayMs, epochDay, dayMs] at *
    omega
  have h2 : endOfDayMs b ≤ endOfDayMs c := by
    simp only [endOfDayMs, startOfDayMs, epochDay, dayMs] at *
    omega
  unfold calculateBillsBetweenDates calculateUpcomingBillsTotal
  dsimp only
  rw [hM1]
  induction bills with
  | nil => norm_num
  | cons bl bls ih =>
    simp only [List.foldl]
    rw [totalFold_shift (startOfDayMs a) (endOfDayMs c) bls,
      totalFold_shift (startOfDayMs a) (endOfDayMs b) bls,
      totalFold_shift (endOfDayMs b + 1) (endOfDayMs c) bls]
    rw [ih (fun x hx => hsafe x (List.mem_cons_of_mem bl hx))]
    rw [billContribution_split (startOfDayMs a) (endOfDayMs b) (endOfDayMs c) bl
      hlo hmid1 h1 h2 (hsafe bl (List.mem_cons_self bl bls))]
    ring


/-- Counterexample to C2 as stated: a monthly bill due on day 31 of the
month with amount 1, over `[2023-01-15, 2023-03-31]`, is counted 3 times
(Jan 31, Feb 28 by clamping, Mar 28 by clamp drift), but the partition at
2023-02-10 / 2023-02-11 yields 1 + 1 = 2: the clamped Feb 28 occurrence
shifts to Mar 3 when the walk restarts from the later sub-interval. -/
theorem claim_C2_counterexample :
    epochDay (1673740800000 : Int) ≤ epochDay 1675987200000 ∧
    epochDay (1675987200000 : Int) < epochDay 1680220800000 ∧
    calculateBillsBetweenDates
      [Bill.mk "Rent" (some 1) "monthly" (some 31) 1672531200000 none]
      1673740800000 1680220800000 = 3 ∧
    calculateBillsBetweenDates
      [Bill.mk "Rent" (some 1) "monthly" (some 31) 1672531200000 none]
      1673740800000 1675987200000 = 1 ∧
    calculateBillsBetweenDates
      [Bill.mk "Rent" (some 1) "monthly" (some 31) 1672531200000 none]
      (1675987200000 + dayMs) 1680220800000 = 1 ∧
    (3 : ℚ) ≠ 1 + 1 := by
  refine ⟨by decide, by decide, ?_, ?_, ?_, by norm_num⟩
  · have hcount : monthlyCount 31 (startOfDayMs 1673740800000)
        (endOfDayMs 1680220800000) = 3 := by
      unfold monthlyCount
      exact fwdWalkFuel_agree monthStep lt_monthStep _ _ 5 _ 3 (by decide)
    have heval : billContribution (startOfDayMs 1673740800000) (endOfDayMs 1680220800000)
        (Bill.mk "Rent" (some 1) "monthly" (some 31) 1672531200000 none)
        = (monthlyCount 31 (startOfDayMs 1673740800000) (endOfDayMs 1680220800000) : ℚ)
          * 1 := by
      unfold billContribution
      dsimp only
      rw [if_neg (show ¬(("monthly" : String) = "one-off") by decide)]
      rw [if_pos (show ("monthly" : String) = "monthly" from rfl)]
      rw [if_neg (show ¬((31 : Int) < 1 ∨ 31 < (31 : Int)) by norm_num)]
    unfold calculateBillsBetweenDates calculateUpcomingBillsTotal
    rw [List.foldl_cons, List.foldl_nil]
    dsimp only
    rw [heval, hcount]
    norm_num
  · have hcount : monthlyCount 31 (startOfDayMs 1673740800000)
        (endOfDayMs 1675987200000) = 1 := by
      unfold monthlyCount
      exact fwdWalkFuel_agree monthStep lt_monthStep _ _ 3 _ 1 (by decide)
    have heval : billContribution (startOfDayMs 1673740800000) (endOfDayMs 1675987200000)
        (Bill.mk "Rent" (some 1) "monthly" (some 31) 1672531200000 none)
        = (monthlyCount 31 (startOfDayMs 1673740800000) (endOfDayMs 1675987200000) : ℚ)
          * 1 := by
      unfold billContribution
      dsimp only
      rw [if_neg (show ¬(("monthly" : String) = "one-off") by decide)]
      rw [if_pos (show ("monthly" : String) = "monthly" from rfl)]
      rw [if_neg (show ¬((31 : Int) < 1 ∨ 31 < (31 : Int)) by norm_num)]
    unfold calculateBillsBetweenDates calculateUpcomingBillsTotal
    rw [List.foldl_cons, List.foldl_nil]
    dsimp only
    rw [heval, hcount]
    norm_num
  · have hcount : monthlyCount 31 (startOfDayMs (1675987200000 + dayMs))
        (endOfDayMs 1680220800000) = 1 := by
      unfold monthlyCount
      exact fwdWalkFuel_agree monthStep lt_monthStep _ _ 3 _ 1 (by decide)
    have heval : billContribution (startOfDayMs (1675987200000 + dayMs))
        (endOfDayMs 1680220800000)
        (Bill.mk "Rent" (some 1) "monthly" (some 31) 1672531200000 none)
        = (monthlyCount 31 (startOfDayMs (1675987200000 + dayMs))
            (endOfDayMs 1680220800000) : ℚ) * 1 := by
      unfold billContribution
      dsimp only
      rw [if_neg (show ¬(("monthly" : String) = "one-off") by decide)]
      rw [if_pos (show ("monthly" : String) = "monthly" from rfl)]
      rw [if_neg (show ¬((31 : Int) < 1 ∨ 31 < (31 : Int)) by norm_num)]
    unfold calculateBillsBetweenDates calculateUpcomingBillsTotal
    rw [List.foldl_cons, List.foldl_nil]
    dsimp only
    rw [heval, hcount]
    norm_num

/-- Witness for the amended C2: a monthly day-28 bill over the same
partition `[2023-01-15, 2023-03-31]` split at 2023-02-10 / 2023-02-11. -/
theorem claim_C2_additivity_for_safe_bills_witness :
    epochDay (1673740800000 : Int) ≤ epochDay 1675987200000 ∧
    epochDay (1675987200000 : Int) < epochDay 1680220800000 ∧
    calculateBillsBetweenDates
      [Bill.mk "Rent" (some 1) "monthly" (some 28) 1672531200000 none]
      1673740800000 1680220800000
      = calculateBillsBetweenDates
          [Bill.mk "Rent" (some 1) "monthly" (some 28) 1672531200000 none]
          1673740800000 1675987200000
        + calculateBillsBetweenDates
            [Bill.mk "Rent" (some 1) "monthly" (some 28) 1672531200000 none]
            (1675987200000 + dayMs) 1680220800000 :=
  ⟨by decide, by decide,
    claim_C2_additivity_for_safe_bills [Bill.mk "Rent" (some 1) "monthly" (some 28) 1672531200000 none]
      1673740800000 1675987200000 1680220800000 (by decide) (by decide)
      (fun bl hbl => by
        rw [List.mem_singleton] at hbl
        subst hbl
        exact ⟨fun _ => by dsimp only; norm_num, fun h => by simp at h⟩)⟩
